import Mathlib

/-!
Verification of the bind-slot allocation and persistence subsystem of
`binds_manager.py` / `keyboard_manager.py` (the `BindsManager` /
`KeyboardManager` classes), against the natural-language specification.

Strings are modelled as `List Char` (`Str`), so that the Python string
operations the code relies on (`str.split`, `str.strip`, `str.replace`,
`int(...)`, f-string concatenation) become ordinary recursive functions
that can be reasoned about.  Python `dict`s (insertion-ordered) are
modelled as association lists, Python `set`s as duplicate-free insertion
lists, and Python `list`s as Lean lists.
-/

set_option maxHeartbeats 1600000
set_option maxRecDepth 8000

namespace RustActions


/-- Strings as character lists. -/
abbrev Str := List Char

/-- The character list of a string literal. -/
def lit (s : String) : Str := s.data

/-- ASCII whitespace, as stripped by Python `str.strip()`.  (Python also
strips some further unicode whitespace; none of it can occur here.) -/
def isPyWS (c : Char) : Bool :=
  c = ' ' || c = '\t' || c = '\n' || c = '\r' || c = Char.ofNat 11 || c = Char.ofNat 12

/-- Drop leading whitespace (`str.lstrip()`). -/
def stripLeft : Str → Str
  | [] => []
  | c :: r => if isPyWS c then stripLeft r else c :: r

/-- Python `str.strip()`: drop leading and trailing whitespace. -/
def pyStrip (s : Str) : Str := stripLeft ((stripLeft s.reverse).reverse)

/-- `leadsWith p s` holds iff `p` is an initial segment of `s`
(used to model matching a separator at the current scan position). -/
def leadsWith : Str → Str → Bool
  | [], _ => true
  | _ :: _, [] => false
  | a :: as, b :: bs => a = b && leadsWith as bs

/-- Worker for `pySplit`: scan left to right, cutting at each
occurrence of the (nonempty) separator `s0 :: sr`; `acc` is the
current segment, reversed. -/
def pySplitGo (s0 : Char) (sr : Str) : Str → Str → List Str
  | [], acc => [acc.reverse]
  | c :: rest, acc =>
    if leadsWith (s0 :: sr) (c :: rest) then
      acc.reverse :: pySplitGo s0 sr (rest.drop sr.length) []
    else
      pySplitGo s0 sr rest (c :: acc)
termination_by s _ => s.length
decreasing_by
  · simp only [List.length_cons]
    have := List.length_drop sr.length rest
    omega
  · simp [List.length_cons]

/-- Python `s.split(sep)` for a nonempty separator (Python raises on an
empty separator; the code never passes one). -/
def pySplit (sep s : Str) : List Str :=
  match sep with
  | [] => [s]
  | s0 :: sr => pySplitGo s0 sr s []

/-- Python `s.replace(old, "")`: `"".join(s.split(old))`. -/
def pyReplaceEmpty (old s : Str) : Str := (pySplit old s).flatten

/-- A decimal digit character. -/
def isDigitCh (c : Char) : Bool := 48 ≤ c.toNat && c.toNat ≤ 57

/-- The digit character for `d < 10` (else `'9'`). -/
def digitCh : Nat → Char
  | 0 => '0' | 1 => '1' | 2 => '2' | 3 => '3' | 4 => '4'
  | 5 => '5' | 6 => '6' | 7 => '7' | 8 => '8' | _ => '9'

/-- Decimal rendering of a natural number, as produced by a Python
f-string `f"{n}"`. -/
def natToChars (n : Nat) : Str :=
  if n < 10 then [digitCh n]
  else natToChars (n / 10) ++ [digitCh (n % 10)]
decreasing_by exact Nat.div_lt_self (by omega) (by omega)

/-- Numeric value of a digit string. -/
def digitsVal (t : Str) : Nat := t.foldl (fun acc c => acc * 10 + (c.toNat - 48)) 0

/-- Python `int(s)` on the strings the loader can meet: succeeds exactly
on (whitespace-padded) nonempty digit strings.  (Python additionally
accepts signs and digit-group underscores; the loader only ever feeds it
slices of generated comment lines, where the model agrees.) -/
def pyInt (s : Str) : Option Nat :=
  let t := pyStrip s
  if t ≠ [] ∧ ∀ c ∈ t, isDigitCh c then some (digitsVal t) else none

/-- `Occurs sep s`: the separator occurs somewhere in `s`. -/
def Occurs (sep s : Str) : Prop := ∃ a b, s = a ++ sep ++ b

/-- `UniqueOcc sep a b`: the visible occurrence of `sep` in
`a ++ sep ++ b` is the only one. -/
def UniqueOcc (sep a b : Str) : Prop :=
  ∀ x y, x ++ sep ++ y = a ++ sep ++ b → x = a ∧ y = b

/-! ### The key-combination space

`BindsManager.available_keys` and `_generate_key_combinations` from
`binds_manager.py`.  `combinations` models `itertools.combinations`
(enumeration of all `k`-subsets in lexicographic order of positions). -/

/-- `BindsManager.available_keys`. -/
def available_keys : List Str :=
  [lit "keypaddivide", lit "keypadmultiply", lit "keypadminus", lit "keypadplus",
   lit "keypadperiod",
   lit "keypad1", lit "keypad2", lit "keypad3", lit "keypad4", lit "keypad5",
   lit "keypad6", lit "keypad7", lit "keypad8", lit "keypad9", lit "keypad0",
   lit "f13", lit "f14", lit "f15",
   lit "slash", lit "period", lit "comma", lit "leftbracket", lit "rightbracket"]

/-- `itertools.combinations(l, k)`: all `k`-element subsequences of `l`,
in lexicographic order of element positions. -/
def combinations {α : Type} : Nat → List α → List (List α)
  | 0, _ => [[]]
  | _ + 1, [] => []
  | k + 1, x :: xs => ((combinations k xs).map (fun c => x :: c)) ++ combinations (k + 1) xs

/-- `"+".join(combo)`. -/
def joinPlus : List Str → Str
  | [] => []
  | [s] => s
  | s :: rest => s ++ '+' :: joinPlus rest

/-- `BindsManager._generate_key_combinations` /
`BindsManager.key_combinations`: every 5-key chord rendered as
`"+"`-joined text. -/
def key_combinations : List Str := (combinations 5 available_keys).map joinPlus

/-- `a` comes strictly before `b` in the key alphabet. -/
def keyEarlier (a b : Str) : Prop :=
  available_keys.indexOf a < available_keys.indexOf b

instance : DecidableRel keyEarlier := fun a b => by
  unfold keyEarlier; infer_instance

/-! ### Slot ranges and the crafting bind mapping

The reserved-range constants and `_initialize_bind_mappings` from
`binds_manager.py`. -/

def CRAFTING_BINDS_START : Nat := 0

def CRAFTING_BINDS_END : Nat := 2999

def API_BINDS_START : Nat := 3000

def API_BINDS_END : Nat := 3999

def CHAT_BINDS_START : Nat := 4000

def CHAT_BINDS_END : Nat := 4999

/-- `len(self.key_combinations)`. -/
def numKeyCombos : Nat := key_combinations.length

/-- Python `dict` assignment `d[k] = v`: update in place if the key is
present, else append (dicts preserve insertion order). -/
def assocUpdate {κ ν : Type} [DecidableEq κ] : List (κ × ν) → κ → ν → List (κ × ν)
  | [], k, v => [(k, v)]
  | (k', v') :: rest, k, v =>
    if k' = k then (k, v) :: rest else (k', v') :: assocUpdate rest k v

/-- Python `dict` lookup `d.get(k)` / `d[k]`. -/
def assocLookup {κ ν : Type} [DecidableEq κ] : List (κ × ν) → κ → Option ν
  | [], _ => none
  | (k', v') :: rest, k => if k' = k then some v' else assocLookup rest k

/-- Python `set.add`. -/
def setAdd (s : List Nat) (n : Nat) : List Nat := if n ∈ s then s else s ++ [n]

/-- The crafting part of the manager state: `bind_mapping`
(`item_id -> (craft_bind_index, cancel_bind_index)`) and `used_binds`. -/
structure CraftState where
  bind_mapping : List (Int × (Nat × Nat))
  used_binds : List Nat
deriving DecidableEq

/-- Loop body of `_initialize_bind_mappings`: enumerate the catalog,
breaking when `i * 2 >= len(self.key_combinations)`. -/
def initialize_bind_mappings_go : Nat → List (Int × Str) → CraftState → CraftState
  | _, [], st => st
  | i, (itemId, _) :: rest, st =>
    if i * 2 ≥ numKeyCombos then st
    else
      initialize_bind_mappings_go (i + 1) rest
        { bind_mapping := assocUpdate st.bind_mapping itemId (i * 2, i * 2 + 1),
          used_binds := setAdd (setAdd st.used_binds (i * 2)) (i * 2 + 1) }

/-- `BindsManager._initialize_bind_mappings`, starting from an empty
mapping (as in `__init__`). -/
def initialize_bind_mappings (items : List (Int × Str)) : CraftState :=
  initialize_bind_mappings_go 0 items { bind_mapping := [], used_binds := [] }

/-- The pairs the loop records when it never breaks. -/
def enumPairs : Nat → List (Int × Str) → List (Int × (Nat × Nat))
  | _, [] => []
  | i, (itemId, _) :: rest => (itemId, (i * 2, i * 2 + 1)) :: enumPairs (i + 1) rest

/-! ### The dynamic bind cache

`dynamic_binds` / `dynamic_bind_order` / `next_dynamic_bind` and
`get_or_create_dynamic_bind` from `binds_manager.py`. -/

/-- The dynamic part of the manager state. -/
structure DynState where
  dynamic_binds : List (Str × Nat)
  dynamic_bind_order : List Nat
  next_dynamic_bind : Nat
  used_binds : List Nat
deriving DecidableEq

/-- The state set up in `__init__` before any load. -/
def initDynState : DynState :=
  { dynamic_binds := [], dynamic_bind_order := [],
    next_dynamic_bind := CHAT_BINDS_START, used_binds := [] }

/-- `bind_key = f"{command_type}:{string_value}"`. -/
def mkBindKey (ct sv : Str) : Str := ct ++ ':' :: sv

/-- `BindsManager.get_or_create_dynamic_bind`.  Returns `none` exactly
when Python would raise (an `IndexError` from `pop(0)` on an empty
order list while the dict is full — unreachable from the initial
state). -/
def get_or_create_dynamic_bind (st : DynState) (ct sv : Str) : Option (Nat × DynState) :=
  match assocLookup st.dynamic_binds (mkBindKey ct sv) with
  | some bind_index =>
      some (bind_index,
        { st with dynamic_bind_order :=
            (if bind_index ∈ st.dynamic_bind_order then
               st.dynamic_bind_order.erase bind_index
             else st.dynamic_bind_order) ++ [bind_index] })
  | none =>
      if st.dynamic_binds.length ≥ CHAT_BINDS_END - CHAT_BINDS_START + 1 then
        match st.dynamic_bind_order with
        | [] => none
        | oldest :: restOrder =>
            let old_bind_key? :=
              (st.dynamic_binds.find? (fun p => p.2 == oldest)).map Prod.fst
            let binds1 :=
              match old_bind_key? with
              | some k =>
                  if k ≠ [] then st.dynamic_binds.eraseP (fun p => p.1 == k)
                  else st.dynamic_binds
              | none => st.dynamic_binds
            some (oldest,
              { dynamic_binds := assocUpdate binds1 (mkBindKey ct sv) oldest,
                dynamic_bind_order := restOrder ++ [oldest],
                next_dynamic_bind := st.next_dynamic_bind,
                used_binds := setAdd st.used_binds oldest })
      else
        let bind_index := st.next_dynamic_bind
        let next1 := st.next_dynamic_bind + 1
        some (bind_index,
          { dynamic_binds := assocUpdate st.dynamic_binds (mkBindKey ct sv) bind_index,
            dynamic_bind_order := st.dynamic_bind_order ++ [bind_index],
            next_dynamic_bind := if next1 > CHAT_BINDS_END then CHAT_BINDS_START else next1,
            used_binds := setAdd st.used_binds bind_index })

/-- The `was_new_bind` check performed by
`KeyboardManager.trigger_chat_command` before calling the cache. -/
def wasNewBind (st : DynState) (ct sv : Str) : Bool :=
  (assocLookup st.dynamic_binds (mkBindKey ct sv)).isNone

/-- The data-structure invariant of the dynamic cache, maintained by
`get_or_create_dynamic_bind` from the initial (empty) state. -/
structure DynInv (st : DynState) : Prop where
  order_nodup : st.dynamic_bind_order.Nodup
  mem_iff : ∀ n, n ∈ st.dynamic_bind_order ↔ n ∈ st.dynamic_binds.map Prod.snd
  snd_nodup : (st.dynamic_binds.map Prod.snd).Nodup
  fst_nodup : (st.dynamic_binds.map Prod.fst).Nodup
  len_eq : st.dynamic_bind_order.length = st.dynamic_binds.length
  len_le : st.dynamic_binds.length ≤ CHAT_BINDS_END - CHAT_BINDS_START + 1
  next_spec : st.next_dynamic_bind = CHAT_BINDS_START + st.dynamic_binds.length ∨
      (st.dynamic_binds.length = CHAT_BINDS_END - CHAT_BINDS_START + 1 ∧
       st.next_dynamic_bind = CHAT_BINDS_START)
  slots_lt : ∀ p ∈ st.dynamic_binds, CHAT_BINDS_START ≤ p.2 ∧
      p.2 < CHAT_BINDS_START + st.dynamic_binds.length
  keys_ne : ∀ p ∈ st.dynamic_binds, p.1 ≠ []

/-- A sequence of `get_or_create_dynamic_bind` calls from the empty
cache (the `none` fallback is unreachable along this fold). -/
def runCalls (calls : List (Str × Str)) : DynState :=
  calls.foldl
    (fun st c =>
      match get_or_create_dynamic_bind st c.1 c.2 with
      | some (_, st') => st'
      | none => st) initDynState

/-! ### The bind-trigger pipeline

`KeyboardManager.trigger_chat_command`.  The externally visible steps
(config write, cache refresh, in-game reload, chord send) are recorded
as an effect trace; the success of each external step is an abstract
boolean input. -/

/-- One externally visible action of `trigger_chat_command`. -/
inductive Effect where
  | writeCfg
  | refreshCache
  | reloadBinds
  | sendChord (slot : Nat)
deriving DecidableEq

/-- `KeyboardManager.trigger_chat_command`: result flag, effect trace
(in execution order), final cache state.  `writeOk` abstracts
`write_keys_cfg_with_sections_protected()`, `reloadOk` abstracts
`reload_binds()`, `sendOk` abstracts `trigger_bind(bind_index)`. -/
def trigger_chat_command (st : DynState) (ct sv : Str)
    (writeOk reloadOk sendOk : Bool) : Bool × List Effect × DynState :=
  if sv = [] then (false, [], st)
  else
    match get_or_create_dynamic_bind st ct sv with
    | none => (false, [], st)
    | some (bind_index, st') =>
      if wasNewBind st ct sv then
        if writeOk then
          if reloadOk then
            (sendOk, [Effect.writeCfg, Effect.refreshCache, Effect.reloadBinds,
              Effect.sendChord bind_index], st')
          else (false, [Effect.writeCfg, Effect.refreshCache, Effect.reloadBinds], st')
        else (false, [Effect.writeCfg], st')
      else (sendOk, [Effect.sendChord bind_index], st')

/-- A catalog one item larger than the crafting range can hold
(`3000 = 2 * 1500` slots, so item index `1500` is the first one the
spec says must be left unbound). -/
def overflowCatalog : List (Int × Str) :=
  (List.range 1501).map (fun i => (Int.ofNat i, lit "item"))

/-- C6 witness catalog. -/
def witCatalog : List (Int × Str) := [(1001, lit "Wood"), (-97956382, lit "TC")]

/-- A full dynamic cache: 1000 distinct `chat_say` keys on slots
4000–4999, in creation order. -/
def fullState : DynState :=
  { dynamic_binds :=
      (List.range 1000).map (fun i => (lit "chat_say:" ++ natToChars i, 4000 + i)),
    dynamic_bind_order := (List.range 1000).map (fun i => 4000 + i),
    next_dynamic_bind := 4000,
    used_binds := (List.range 1000).map (fun i => 4000 + i) }

/-- A one-entry cache used to witness the hit path. -/
def stA : DynState :=
  { dynamic_binds := [(lit "chat_say:hi", 4000)],
    dynamic_bind_order := [4000],
    next_dynamic_bind := 4001,
    used_binds := [4000] }

/-! ### Config rendering

`_format_bind_command`, `generate_crafting_binds`, `generate_api_binds`,
`generate_chat_binds`, `generate_dynamic_chat_binds` and
`write_keys_cfg_with_sections` from `binds_manager.py`, at the level of
the list of lines written to `keys.cfg`. -/

/-- An empty output line. -/
def emptyLine : Str := []

/-- Python `str(n)` for a possibly negative item id. -/
def intToChars (n : Int) : Str :=
  if n < 0 then '-' :: natToChars n.natAbs else natToChars n.natAbs

/-- `self.key_combinations[i]` (all in-range in every reachable use;
out-of-range indexing would raise in Python). -/
def keyComboAt (i : Nat) : Str := key_combinations.getD i []

/-- The hard-coded fallback combination used when a dynamic bind index
exceeds the combination space. -/
def fallbackCombo : Str := lit "keypaddivide+keypadplus+keypad4+keypad7+period"

/-- `BindsManager._format_bind_command`. -/
def format_bind_command (key_combo command : Str) : Str :=
  lit "bind [" ++ key_combo ++ lit "] " ++ command

/-- The crafting-item loop of `generate_crafting_binds` (three lines
plus a blank per item, recording the pair and marking both slots
used). -/
def generate_crafting_binds_go : Nat → List (Int × Str) → CraftState →
    List Str × CraftState
  | _, [], st => ([], st)
  | i, (itemId, itemName) :: rest, st =>
    if i * 2 ≥ numKeyCombos then ([], st)
    else
      let comment := lit "# Craft/Cancel " ++ itemName ++ lit " (ID: " ++
        intToChars itemId ++ lit ") - reserved bind no." ++ natToChars (i * 2) ++
        '/' :: natToChars (i * 2 + 1)
      let craftLine := format_bind_command (keyComboAt (i * 2))
        (lit "craft.add " ++ intToChars itemId ++ lit " 1")
      let cancelLine := format_bind_command (keyComboAt (i * 2 + 1))
        (lit "craft.cancel " ++ intToChars itemId ++ lit " 1")
      let st' : CraftState :=
        { bind_mapping := assocUpdate st.bind_mapping itemId (i * 2, i * 2 + 1),
          used_binds := setAdd (setAdd st.used_binds (i * 2)) (i * 2 + 1) }
      let r := generate_crafting_binds_go (i + 1) rest st'
      (comment :: craftLine :: cancelLine :: emptyLine :: r.1, r.2)

/-- The empty-reserved-slot filler loop shared by the crafting and API
sections: for each index below the combination count, a comment plus an
empty bind, and the slot is marked used. -/
def reservedFiller : List Nat → List Nat → List Str × List Nat
  | [], used => ([], used)
  | idx :: rest, used =>
    if idx < numKeyCombos then
      let r := reservedFiller rest (setAdd used idx)
      ((lit "# Reserved bind no." ++ natToChars idx) ::
        format_bind_command (keyComboAt idx) (lit "\"\"") :: r.1, r.2)
    else reservedFiller rest used

/-- `BindsManager.generate_crafting_binds`. -/
def generate_crafting_binds (items : List (Int × Str)) (st : CraftState) :
    List Str × CraftState :=
  let r := generate_crafting_binds_go 0 items st
  if items.length * 2 < CRAFTING_BINDS_END - CRAFTING_BINDS_START + 1 then
    let f := reservedFiller
      (List.range' (CRAFTING_BINDS_START + items.length * 2)
        (CRAFTING_BINDS_END + 1 - (CRAFTING_BINDS_START + items.length * 2)))
      r.2.used_binds
    (r.1 ++ lit "# Empty reserved binds for future crafting items" ::
      (f.1 ++ [emptyLine]), { r.2 with used_binds := f.2 })
  else r

/-- The hard-coded `api_commands` table of `generate_api_binds`. -/
def api_commands : List (Str × Str) :=
  [(lit "kill", lit "kill"),
   (lit "respawn", lit "respawn"),
   (lit "autorun", lit "forward;sprint;chat.add 0 0 \"Auto run enabled!\""),
   (lit "autorun_jump", lit "forward;sprint;jump;chat.add 0 0 \"Auto run and jump enabled!\""),
   (lit "crouch_attack", lit "attack;duck;chat.add 0 0 \"Auto crouch and attack enabled!\""),
   (lit "quit_game", lit "quit"),
   (lit "disconnect", lit "disconnect"),
   (lit "lookat_radius_20", lit "client.lookatradius 20;chat.add 0 0 \"Look radius set to wide (20)\""),
   (lit "lookat_radius_0", lit "client.lookatradius 0.0002;chat.add 0 0 \"Look radius set to narrow (0.0002)\""),
   (lit "audio_voices_0", lit "audio.voices 0;chat.add 0 0 \"Voice volume set to 0%\""),
   (lit "audio_voices_25", lit "audio.voices 0.25;chat.add 0 0 \"Voice volume set to 25%\""),
   (lit "audio_voices_50", lit "audio.voices 0.5;chat.add 0 0 \"Voice volume set to 50%\""),
   (lit "audio_voices_75", lit "audio.voices 0.75;chat.add 0 0 \"Voice volume set to 75%\""),
   (lit "audio_voices_100", lit "audio.voices 1;chat.add 0 0 \"Voice volume set to 100%\""),
   (lit "audio_master_0", lit "audio.master 0;chat.add 0 0 \"Master volume set to 0%\""),
   (lit "audio_master_25", lit "audio.master 0.25;chat.add 0 0 \"Master volume set to 25%\""),
   (lit "audio_master_50", lit "audio.master 0.5;chat.add 0 0 \"Master volume set to 50%\""),
   (lit "audio_master_75", lit "audio.master 0.75;chat.add 0 0 \"Master volume set to 75%\""),
   (lit "audio_master_100", lit "audio.master 1;chat.add 0 0 \"Master volume set to 100%\""),
   (lit "hud_off", lit "graphics.hud 0"),
   (lit "hud_on", lit "graphics.hud 1"),
   (lit "gesture_wave", lit "gesture wave"),
   (lit "gesture_victory", lit "gesture victory"),
   (lit "gesture_shrug", lit "gesture shrug"),
   (lit "gesture_thumbsup", lit "gesture thumbsup"),
   (lit "gesture_hurry", lit "gesture hurry"),
   (lit "gesture_ok", lit "gesture ok"),
   (lit "gesture_thumbsdown", lit "gesture thumbsdown"),
   (lit "gesture_clap", lit "gesture clap"),
   (lit "gesture_point", lit "gesture point"),
   (lit "gesture_friendly", lit "gesture friendly"),
   (lit "gesture_cabbagepatch", lit "gesture cabbagepatch"),
   (lit "gesture_twist", lit "gesture twist"),
   (lit "gesture_raisetheroof", lit "gesture raisetheroof"),
   (lit "gesture_beatchest", lit "gesture beatchest"),
   (lit "gesture_throatcut", lit "gesture throatcut"),
   (lit "gesture_fingergun", lit "gesture fingergun"),
   (lit "gesture_shush", lit "gesture shush"),
   (lit "gesture_shush_vocal", lit "gesture shush_vocal"),
   (lit "gesture_watchingyou", lit "gesture watchingyou"),
   (lit "gesture_loser", lit "gesture loser"),
   (lit "gesture_nono", lit "gesture nono"),
   (lit "gesture_knucklescrack", lit "gesture knucklescrack"),
   (lit "gesture_rps", lit "gesture rps"),
   (lit "noclip_true", lit "noclip true;chat.add 0 0 \"Noclip enabled!\""),
   (lit "noclip_false", lit "noclip false;chat.add 0 0 \"Noclip disabled!\""),
   (lit "global_god_true", lit "global.god true;chat.add 0 0 \"God mode enabled!\""),
   (lit "global_god_false", lit "global.god false;chat.add 0 0 \"God mode disabled!\""),
   (lit "env_time_0", lit "env.time 0;chat.add 0 0 \"Time set to 00:00 (midnight)\""),
   (lit "env_time_4", lit "env.time 4;chat.add 0 0 \"Time set to 04:00 (early morning)\""),
   (lit "env_time_8", lit "env.time 8;chat.add 0 0 \"Time set to 08:00 (morning)\""),
   (lit "env_time_12", lit "env.time 12;chat.add 0 0 \"Time set to 12:00 (noon)\""),
   (lit "env_time_16", lit "env.time 16;chat.add 0 0 \"Time set to 16:00 (afternoon)\""),
   (lit "env_time_20", lit "env.time 20;chat.add 0 0 \"Time set to 20:00 (evening)\""),
   (lit "env_time_24", lit "env.time 24;chat.add 0 0 \"Time set to 24:00 (midnight)\""),
   (lit "teleport2marker", lit "teleport2marker;chat.add 0 0 \"Teleported to marker!\""),
   (lit "combatlog", lit "combatlog"),
   (lit "console_clear", lit "console.clear"),
   (lit "consoletoggle", lit "consoletoggle"),
   (lit "chat_continuous_stack_enabled", lit "chat.add 0 0 \"Continuous stack inventory enabled!\""),
   (lit "chat_continuous_stack_disabled", lit "chat.add 0 0 \"Continuous stack inventory disabled!\""),
   (lit "chat_anti_afk_started", lit "chat.add 0 0 \"Anti-AFK started!\""),
   (lit "chat_anti_afk_stopped", lit "chat.add 0 0 \"Anti-AFK stopped!\""),
   (lit "cancel_all_crafting", lit "craft.cancelall;chat.add 0 0 \"All crafting cancelled!\""),
   (lit "ent_kill", lit "ent kill;chat.add 0 0 \"Entity killed!\"")]

/-- The command loop of `generate_api_binds`. -/
def generate_api_binds_go : Nat → List (Str × Str) → List Nat → List Str × List Nat
  | _, [], used => ([], used)
  | i, (name, command) :: rest, used =>
    let bind_index := API_BINDS_START + i
    if bind_index ≥ numKeyCombos then ([], used)
    else
      let r := generate_api_binds_go (i + 1) rest (setAdd used bind_index)
      ((lit "# API: " ++ name ++ lit " - reserved bind no." ++ natToChars bind_index) ::
        format_bind_command (keyComboAt bind_index) command :: emptyLine :: r.1, r.2)

/-- `BindsManager.generate_api_binds`. -/
def generate_api_binds (used : List Nat) : List Str × List Nat :=
  let r := generate_api_binds_go 0 api_commands used
  if api_commands.length < API_BINDS_END - API_BINDS_START + 1 then
    let f := reservedFiller
      (List.range' (API_BINDS_START + api_commands.length)
        (API_BINDS_END + 1 - (API_BINDS_START + api_commands.length))) r.2
    (r.1 ++ lit "# Empty reserved binds for future API commands" :: (f.1 ++ [emptyLine]),
      f.2)
  else r

/-- `BindsManager.generate_chat_binds`: the all-placeholder chat
section used when no dynamic bind exists. -/
def generate_chat_binds (used : List Nat) : List Str × List Nat :=
  let f := reservedFiller
    (List.range' CHAT_BINDS_START (CHAT_BINDS_END + 1 - CHAT_BINDS_START)) used
  (lit "# Empty reserved binds for dynamic chat/connection commands" ::
    (f.1 ++ [emptyLine]), f.2)

/-- The `command_templates` table of `generate_dynamic_chat_binds`. -/
def command_templates : List (Str × Str) :=
  [(lit "chat_say", lit "chat.say"),
   (lit "chat_teamsay", lit "chat.teamsay"),
   (lit "client_connect", lit "disconnect;client.connect"),
   (lit "respawn_sleepingbag", lit "respawn_sleepingbag"),
   (lit "inventory_give", lit "inventory.give")]

/-- `bind_key.split(":", 1)`: split at the first colon.  Every stored
key contains a colon (Python would raise on unpacking otherwise). -/
def colonSplit1 : Str → Str × Str
  | [] => ([], [])
  | c :: rest =>
    if c = ':' then ([], rest)
    else
      let (a, b) := colonSplit1 rest
      (c :: a, b)

/-- The persisted comment line
`# Dynamic: <commandType> - '<stringValue>' - bind no.<slotIndex>`. -/
def dynComment (ct sv : Str) (idx : Nat) : Str :=
  lit "# Dynamic: " ++ ct ++ lit " - '" ++ sv ++ lit "' - bind no." ++ natToChars idx

/-- The combination chosen for a dynamic bind index (with the
hard-coded fallback past the end of the space). -/
def dynKeyComboAt (idx : Nat) : Str :=
  if idx < numKeyCombos then keyComboAt idx else fallbackCombo

/-- The lines emitted for one stored dynamic bind (nothing for an
unknown command type, which is logged and skipped). -/
def dynEntryLines (p : Str × Nat) : List Str :=
  let (command_type, string_value) := colonSplit1 p.1
  match assocLookup command_templates command_type with
  | none => []
  | some tmpl =>
    let command :=
      if command_type = lit "chat_say" ∨ command_type = lit "chat_teamsay" then
        tmpl ++ ' ' :: '"' :: (string_value ++ ['"'])
      else if command_type = lit "inventory_give" then string_value
      else tmpl ++ ' ' :: string_value
    [dynComment command_type string_value p.2,
     format_bind_command (dynKeyComboAt p.2) command,
     emptyLine]

/-- The free-slot filler of `generate_dynamic_chat_binds` (comment and
empty bind per unoccupied slot; deliberately does NOT mark the slot
used, and uses the fallback combination past the end of the space). -/
def dynFreeSlotLines (vals : List Nat) : List Nat → List Str
  | [] => []
  | idx :: rest =>
    if idx ∈ vals then dynFreeSlotLines vals rest
    else
      (lit "# Reserved bind no." ++ natToChars idx) ::
        format_bind_command (dynKeyComboAt idx) (lit "\"\"") ::
        dynFreeSlotLines vals rest

/-- `BindsManager.generate_dynamic_chat_binds`. -/
def generate_dynamic_chat_binds (dynBinds : List (Str × Nat)) (used : List Nat) :
    List Str × List Nat :=
  if dynBinds = [] then generate_chat_binds used
  else
    if dynBinds.length < CHAT_BINDS_END - CHAT_BINDS_START + 1 then
      (dynBinds.flatMap dynEntryLines ++
        lit "# Empty reserved binds for future dynamic chat/connection commands" ::
        (dynFreeSlotLines (dynBinds.map Prod.snd)
          (List.range' CHAT_BINDS_START (CHAT_BINDS_END + 1 - CHAT_BINDS_START)) ++
          [emptyLine]), used)
    else (dynBinds.flatMap dynEntryLines, used)

/-- The built-in default user section substituted when the user section
is missing (`write_keys_cfg_with_sections`). -/
def default_user_binds : List Str :=
  [lit "bind tab inventory.toggle",
   lit "bind return chat.open",
   lit "bind space +jump",
   lit "bind 1 +slot1",
   lit "bind 2 +slot2",
   lit "bind 3 +slot3",
   lit "bind 4 +slot4",
   lit "bind 5 +slot5",
   lit "bind 6 +slot6",
   lit "bind 7 +holsteritem",
   lit "bind a +left",
   lit "bind b +gestures",
   lit "bind c forward;sprint",
   lit "bind d +right",
   lit "bind e +nextskin;+nextskin;+nextskin;+nextskin;+nextskin;+nextskin;+nextskin;+nextskin;+nextskin;+nextskin;+nextskin;+nextskin;+nextskin;+nextskin;+use",
   lit "bind f +focusmap;lighttoggle",
   lit "bind g +map",
   lit "bind h +hoverloot",
   lit "bind j +global.hudcomponent BinocularOverlay 1;global.hudcomponent BinocularOverlay 0",
   lit "bind k exec keys.cfg",
   lit "bind m +firemode",
   lit "bind n inventory.examineheld",
   lit "bind p +pets",
   lit "bind q +prevskin;+prevskin;+prevskin;+prevskin;+prevskin;+prevskin;+prevskin;+prevskin;+prevskin;+prevskin;+prevskin;+prevskin;+prevskin;+prevskin;+ping",
   lit "bind r +reload",
   lit "bind s +backward",
   lit "bind t chat.open",
   lit "bind v +voice",
   lit "bind w +forward",
   lit "bind x swapseats",
   lit "bind y +opentutorialhelp",
   lit "bind z attack;duck",
   lit "bind keypad1 +notec",
   lit "bind keypad2 +noted",
   lit "bind keypad3 +notee",
   lit "bind keypad4 +notef",
   lit "bind keypad5 +noteg",
   lit "bind keypad6 +notea",
   lit "bind keypad7 +noteb",
   lit "bind keypadplus +notesharpmod",
   lit "bind keypadenter +noteoctaveupmod",
   lit "bind pageup +zoomincrease",
   lit "bind pagedown +zoomdecrease",
   lit "bind f1 combatlog;consoletoggle",
   lit "bind leftshift +sprint",
   lit "bind leftcontrol +duck",
   lit "bind leftalt +altlook;+meta.if_true \"headlerp 0\";+meta.if_false \"headlerp 100\"",
   lit "bind mouse0 +attack",
   lit "bind mouse1 +attack2",
   lit "bind mouse2 +attack3",
   lit "bind mouse3 inventory.togglecrafting",
   lit "bind mouse4 ~graphics.fov 70;graphics.fov 80",
   lit "bind mousewheelup +invprev",
   lit "bind mousewheeldown +invnext",
   lit "bind [leftcontrol+1] swaptoseat 0",
   lit "bind [leftcontrol+2] swaptoseat 1",
   lit "bind [leftcontrol+3] swaptoseat 2",
   lit "bind [leftcontrol+4] swaptoseat 3",
   lit "bind [leftcontrol+5] swaptoseat 4",
   lit "bind [leftcontrol+6] swaptoseat 5",
   lit "bind [leftcontrol+7] swaptoseat 6",
   lit "bind [leftcontrol+8] swaptoseat 7",
   lit "bind [leftshift+mousewheelup] +wireslackup",
   lit "bind [leftshift+mousewheeldown] +wireslackdown"]

/-- `BindsManager.write_keys_cfg_with_sections`, as the list of lines
written to `keys.cfg`: `userLines` is the user section recovered by
`read_existing_keys_cfg` (the default table when empty), the three
generated sections follow between the `RUST-ACTIONS` markers. -/
def write_keys_cfg_lines (userLines : List Str) (items : List (Int × Str))
    (dynBinds : List (Str × Nat)) (st : CraftState) : List Str × CraftState :=
  let user := if userLines = [] then default_user_binds else userLines
  let c := generate_crafting_binds items st
  let a := generate_api_binds c.2.used_binds
  let d := generate_dynamic_chat_binds dynBinds a.2
  let rust_actions :=
    lit "# Rust Actions Programmatically Managed Binds" ::
    lit "# Generated by BindsManager" ::
    emptyLine ::
    lit "# === CRAFTING BINDS ===" ::
    (c.1 ++
      emptyLine ::
      lit "# === API BINDS ===" ::
      (a.1 ++
        emptyLine ::
        lit "# === CHAT/CONNECTION BINDS ===" ::
        (d.1 ++ [emptyLine])))
  (lit "#USER-SECTION-START" ::
    (user ++
      lit "#USER-SECTION-END" ::
      emptyLine ::
      lit "#RUST-ACTIONS-START" ::
      (rust_actions ++
        lit "#RUST-ACTIONS-END" ::
        [emptyLine])),
    { c.2 with used_binds := d.2 })

/-! ### Config parsing

`read_existing_keys_cfg` and `_load_dynamic_binds_from_keys_cfg` from
`binds_manager.py`, over the list of (newline-stripped) lines of the
file. -/

/-- Accumulator of the `read_existing_keys_cfg` loop:
`0 = "other"`, `1 = "user"`, `2 = "rust_actions"`. -/
structure ReadAcc where
  cur : Nat
  user : List Str
  rust : List Str
  other : List Str

/-- One iteration of the section loop of `read_existing_keys_cfg`. -/
def readSectionsStep (acc : ReadAcc) (line : Str) : ReadAcc :=
  if pyStrip line = lit "#USER-SECTION-START" then { acc with cur := 1 }
  else if pyStrip line = lit "#USER-SECTION-END" then { acc with cur := 0 }
  else if pyStrip line = lit "#RUST-ACTIONS-START" then { acc with cur := 2 }
  else if pyStrip line = lit "#RUST-ACTIONS-END" then { acc with cur := 0 }
  else if acc.cur = 0 ∧ pyStrip line = [] ∧ acc.other = [] then acc
  else if acc.cur = 1 then { acc with user := acc.user ++ [line] }
  else if acc.cur = 2 then { acc with rust := acc.rust ++ [line] }
  else { acc with other := acc.other ++ [line] }

/-- `BindsManager.read_existing_keys_cfg`, returning
`(user_binds, rust_actions_binds, other_binds)`. -/
def read_existing_keys_cfg (lines : List Str) : List Str × List Str × List Str :=
  let acc := lines.foldl readSectionsStep { cur := 0, user := [], rust := [], other := [] }
  if ¬ lines.any (fun l =>
      pyStrip l = lit "#USER-SECTION-START" ∨ pyStrip l = lit "#RUST-ACTIONS-START") then
    (lines.filter (fun l => pyStrip l ≠ [] ∧ ¬ leadsWith ['#'] (pyStrip l)), [], [])
  else
    (acc.user, acc.rust, acc.other)

/-- The `# Dynamic:` comment parser inside
`_load_dynamic_binds_from_keys_cfg` (`none` models both the
`len(parts) < 2` fall-through and a raised-and-caught exception). -/
def parseDynLine (line : Str) : Option (Str × Str × Nat) :=
  let parts := pySplit (lit " - '") line
  if parts.length ≥ 2 then
    let command_part := parts.getD 0 []
    let string_part := (pySplit (lit "' - bind no.") (parts.getD 1 [])).getD 0 []
    match (pySplit (lit "bind no.") line).get? 1 with
    | none => none
    | some bind_index_part =>
      match pyInt bind_index_part with
      | none => none
      | some bind_index =>
        some (pyStrip (pyReplaceEmpty (lit "# Dynamic: ") command_part),
          pyStrip string_part, bind_index)
  else none

/-- The running state of `_load_dynamic_binds_from_keys_cfg`. -/
structure LoadState where
  binds : List (Str × Nat)
  order : List Nat
  used : List Nat
  next : Nat
  inRust : Bool
  inChat : Bool
deriving DecidableEq

/-- One iteration of the line loop of
`_load_dynamic_binds_from_keys_cfg`. -/
def loadStep (ls : LoadState) (rawLine : Str) : LoadState :=
  let line := pyStrip rawLine
  if line = lit "#RUST-ACTIONS-START" then { ls with inRust := true }
  else if line = lit "#RUST-ACTIONS-END" then { ls with inRust := false }
  else if line = lit "# === CHAT/CONNECTION BINDS ===" then { ls with inChat := true }
  else if ¬ (ls.inRust ∧ ls.inChat) then ls
  else if leadsWith (lit "# Dynamic:") line then
    match parseDynLine line with
    | none => ls
    | some (command_type, string_value, bind_index) =>
      { ls with
        binds := assocUpdate ls.binds (command_type ++ ':' :: string_value) bind_index,
        order := ls.order ++ [bind_index],
        used := setAdd ls.used bind_index,
        next := if bind_index ≥ ls.next then bind_index + 1 else ls.next }
  else ls

/-- `BindsManager._load_dynamic_binds_from_keys_cfg` over the file's
lines, starting from the constructor's empty dynamic state. -/
def load_dynamic_binds_from_keys_cfg (lines : List Str) : LoadState :=
  let final := lines.foldl loadStep
    { binds := [], order := [], used := [], next := CHAT_BINDS_START,
      inRust := false, inChat := false }
  { final with
    next :=
      if final.next < CHAT_BINDS_START ∨ final.next > CHAT_BINDS_END then
        CHAT_BINDS_START
      else final.next }

/-! ### Which lines the loader ignores -/

/-- The apostrophe. -/
def quoteCh : Char := Char.ofNat 39

/-- A line that flips none of the loader's section flags. -/
def NeutralLine (l : Str) : Prop :=
  pyStrip l ≠ lit "#RUST-ACTIONS-START" ∧
  pyStrip l ≠ lit "#RUST-ACTIONS-END" ∧
  pyStrip l ≠ lit "# === CHAT/CONNECTION BINDS ==="

/-- A line the loader ignores entirely: no flag flip and no
`# Dynamic:` prefix. -/
def SkipLine (l : Str) : Prop :=
  NeutralLine l ∧ leadsWith (lit "# Dynamic:") (pyStrip l) = false

instance (l : Str) : Decidable (NeutralLine l) := by
  unfold NeutralLine; infer_instance

instance (l : Str) : Decidable (SkipLine l) := by
  unfold SkipLine; infer_instance

/-! ### Round-trip of the dynamic comment lines -/

/-- The command type is one of the five the generator knows. -/
def GoodCT (ct : Str) : Prop :=
  ct = lit "chat_say" ∨ ct = lit "chat_teamsay" ∨ ct = lit "client_connect" ∨
  ct = lit "respawn_sleepingbag" ∨ ct = lit "inventory_give"

/-- A string value the comment format can persist faithfully: free of
the delimiter characters (apostrophe, hyphen, period — the format has
no escaping), of newlines (one file line per bind), and
whitespace-stripped (the parser strips what it reads back). -/
def GoodSV (sv : Str) : Prop :=
  (∀ c ∈ sv, c ≠ quoteCh ∧ c ≠ '-' ∧ c ≠ '.' ∧ c ≠ '\n' ∧ c ≠ '\r') ∧
  pyStrip sv = sv

instance (ct : Str) : Decidable (GoodCT ct) := by
  unfold GoodCT; infer_instance

instance (sv : Str) : Decidable (GoodSV sv) := by
  unfold GoodSV; infer_instance

/-- `FirstOcc sep a b`: in `a ++ sep ++ b`, no occurrence of `sep`
starts strictly before the visible one. -/
def FirstOcc (sep a b : Str) : Prop :=
  ∀ x y, x ++ sep ++ y = a ++ sep ++ b → a.length ≤ x.length

/-! ### Loading the generated file -/

/-- A stored dynamic-bind entry whose key decomposes into a known
command type and a well-formed string value. -/
def GoodEntry (p : Str × Nat) : Prop :=
  ∃ ct sv, p.1 = ct ++ ':' :: sv ∧ GoodCT ct ∧ GoodSV sv

/-- The net effect of one well-formed entry's lines on the loader
state. -/
def loadEntryStep (ls : LoadState) (p : Str × Nat) : LoadState :=
  { ls with
    binds := assocUpdate ls.binds p.1 p.2,
    order := ls.order ++ [p.2],
    used := setAdd ls.used p.2,
    next := if p.2 ≥ ls.next then p.2 + 1 else ls.next }

/-- The loader state right after the writer's three marker lines have
been processed. -/
def loadInitRust : LoadState :=
  { binds := [], order := [], used := [], next := CHAT_BINDS_START,
    inRust := true, inChat := true }

/-- The effect of the closing `#RUST-ACTIONS-END` line and the loader's
final range check on `next_dynamic_bind`. -/
def finishLoad (mid : LoadState) : LoadState :=
  { mid with
    inRust := false,
    next :=
      if mid.next < CHAT_BINDS_START ∨ mid.next > CHAT_BINDS_END then CHAT_BINDS_START
      else mid.next }

/-- Consistency of `used_binds` with the crafting mapping, in the
direction that holds: every slot of a mapped pair is marked used. -/
def CraftUsedConsistent (st : CraftState) : Prop :=
  ∀ id c₁ c₂, assocLookup st.bind_mapping id = some (c₁, c₂) →
    c₁ ∈ st.used_binds ∧ c₂ ∈ st.used_binds

/-- Consistency of the cache's `used_binds` with its entry map, in the
direction that holds: every slot of a dynamic-bind entry is marked
used. -/
def DynUsedConsistent (st : DynState) : Prop :=
  ∀ n ∈ st.dynamic_binds.map Prod.snd, n ∈ st.used_binds

theorem leadsWith_iff (p s : Str) : leadsWith p s = true ↔ ∃ t, s = p ++ t := by
  induction p generalizing s with
  | nil => simp [leadsWith]
  | cons a as ih =>
    cases s with
    | nil => simp [leadsWith]
    | cons b bs =>
      simp only [leadsWith, Bool.and_eq_true, decide_eq_true_eq, ih, List.cons_append]
      constructor
      · rintro ⟨rfl, t, rfl⟩; exact ⟨t, rfl⟩
      · rintro ⟨t, h⟩
        injection h with h1 h2
        exact ⟨h1.symm, t, h2⟩

theorem pySplitGo_noOcc (s0 : Char) (sr : Str) (s acc : Str)
    (h : ¬ Occurs (s0 :: sr) s) :
    pySplitGo s0 sr s acc = [acc.reverse ++ s] := by
  induction s generalizing acc with
  | nil => simp [pySplitGo]
  | cons c rest ih =>
    rw [pySplitGo]
    have hlw : leadsWith (s0 :: sr) (c :: rest) = false := by
      rcases Bool.eq_false_or_eq_true (leadsWith (s0 :: sr) (c :: rest)) with ht | hf
      · obtain ⟨t, ht'⟩ := (leadsWith_iff _ _).mp ht
        exact absurd ⟨[], t, by simpa using ht'⟩ h
      · exact hf
    rw [hlw]
    simp only [Bool.false_eq_true, if_false]
    rw [ih]
    · simp
    · rintro ⟨a, b, hab⟩
      exact h ⟨c :: a, b, by simp [hab]⟩

theorem pySplitGo_unique (s0 : Char) (sr : Str) (a b acc : Str)
    (h : UniqueOcc (s0 :: sr) a b) :
    pySplitGo s0 sr (a ++ (s0 :: sr) ++ b) acc = [acc.reverse ++ a, b] := by
  induction a generalizing acc with
  | nil =>
    rw [List.nil_append, List.cons_append, pySplitGo]
    have hlw : leadsWith (s0 :: sr) (s0 :: (sr ++ b)) = true :=
      (leadsWith_iff _ _).mpr ⟨b, by simp⟩
    rw [hlw]
    simp only [if_true]
    rw [List.drop_left]
    rw [pySplitGo_noOcc]
    · simp
    · rintro ⟨x, y, hxy⟩
      have := h ((s0 :: sr) ++ x) y (by simp [hxy])
      have hlen : ((s0 :: sr) ++ x).length = ([] : Str).length := by rw [this.1]
      simp at hlen
  | cons c a' ih =>
    rw [List.cons_append, List.cons_append, pySplitGo]
    have hlw : leadsWith (s0 :: sr) (c :: (a' ++ (s0 :: sr) ++ b)) = false := by
      rcases Bool.eq_false_or_eq_true (leadsWith (s0 :: sr) (c :: (a' ++ (s0 :: sr) ++ b))) with ht | hf
      · obtain ⟨t, ht'⟩ := (leadsWith_iff _ _).mp ht
        have := h [] t (by simpa using ht'.symm)
        have hlen : ([] : Str).length = (c :: a').length := by rw [this.1]
        simp at hlen
      · exact hf
    rw [hlw]
    simp only [Bool.false_eq_true, if_false]
    have h' : UniqueOcc (s0 :: sr) a' b := by
      intro x y hxy
      have := h (c :: x) y (by simp [hxy])
      refine ⟨?_, this.2⟩
      have := this.1
      injection this
    rw [ih (c :: acc) h']
    simp

theorem pySplit_unique (sep a b : Str) (hne : sep ≠ [])
    (h : UniqueOcc sep a b) :
    pySplit sep (a ++ sep ++ b) = [a, b] := by
  match sep, hne with
  | s0 :: sr, _ =>
    have := pySplitGo_unique s0 sr a b [] h
    simpa [pySplit] using this

theorem pySplit_noOcc (sep s : Str) (hne : sep ≠ []) (h : ¬ Occurs sep s) :
    pySplit sep s = [s] := by
  match sep, hne with
  | s0 :: sr, _ =>
    have := pySplitGo_noOcc s0 sr s [] h
    simpa [pySplit] using this

/-- First-occurrence uniqueness: splitting a list at a marker element
that occurs in neither prefix determines the decomposition. -/
theorem append_cons_inj {α : Type} {m : α} :
    ∀ {x₁ x₂ y₁ y₂ : List α}, m ∉ x₁ → m ∉ x₂ →
      x₁ ++ m :: y₁ = x₂ ++ m :: y₂ → x₁ = x₂ ∧ y₁ = y₂ := by
  intro x₁
  induction x₁ with
  | nil =>
    intro x₂ y₁ y₂ _ h2 heq
    cases x₂ with
    | nil => simpa using heq
    | cons c t =>
      simp only [List.nil_append, List.cons_append] at heq
      injection heq with hc _
      exact absurd (List.mem_cons_self c t) (hc ▸ h2)
  | cons c t ih =>
    intro x₂ y₁ y₂ h1 h2 heq
    cases x₂ with
    | nil =>
      simp only [List.nil_append, List.cons_append] at heq
      injection heq with hc _
      exact absurd (List.mem_cons_self m t) (hc ▸ h1)
    | cons d u =>
      simp only [List.cons_append] at heq
      injection heq with hcd hrest
      have := ih (fun hm => h1 (List.mem_cons_of_mem c hm))
        (fun hm => h2 (List.mem_cons_of_mem d hm)) hrest
      exact ⟨by rw [hcd, this.1], this.2⟩

/-- Last-occurrence uniqueness: the mirror of `append_cons_inj`. -/
theorem append_cons_inj_last {α : Type} {m : α} {x₁ x₂ y₁ y₂ : List α}
    (h1 : m ∉ y₁) (h2 : m ∉ y₂)
    (heq : x₁ ++ m :: y₁ = x₂ ++ m :: y₂) : x₁ = x₂ ∧ y₁ = y₂ := by
  have hrev : y₁.reverse ++ m :: x₁.reverse = y₂.reverse ++ m :: x₂.reverse := by
    have := congrArg List.reverse heq
    simpa [List.reverse_append] using this
  have := append_cons_inj (by simpa using h1) (by simpa using h2) hrev
  constructor
  · have := this.2
    simpa using congrArg List.reverse this
  · have := this.1
    simpa using congrArg List.reverse this

theorem ws_toNat {c : Char} (h : isPyWS c = true) : c.toNat ≤ 32 := by
  simp only [isPyWS, Bool.or_eq_true, decide_eq_true_eq] at h
  rcases h with ((((h | h) | h) | h) | h) | h <;> subst h <;> decide

theorem digit_not_ws {c : Char} (hd : isDigitCh c = true) : isPyWS c = false := by
  rcases Bool.eq_false_or_eq_true (isPyWS c) with ht | hf
  · have h1 := ws_toNat ht
    simp only [isDigitCh, Bool.and_eq_true, decide_eq_true_eq] at hd
    omega
  · exact hf

theorem stripLeft_cons {c : Char} {r : Str} (h : isPyWS c = false) :
    stripLeft (c :: r) = c :: r := by
  simp [stripLeft, h]

theorem stripLeft_append_last {d : Char} (h : isPyWS d = false) :
    ∀ xs : Str, stripLeft (xs ++ [d]) = stripLeft xs ++ [d] := by
  intro xs
  induction xs with
  | nil => simp [stripLeft, h]
  | cons x t ih =>
    by_cases hx : isPyWS x = true
    · simp [stripLeft, hx, ih]
    · simp only [Bool.not_eq_true] at hx
      simp [stripLeft, hx]

theorem pyStrip_cons {c : Char} {r : Str} (hc : isPyWS c = false) :
    pyStrip (c :: r) = c :: (stripLeft r.reverse).reverse := by
  unfold pyStrip
  have h1 : (c :: r).reverse = r.reverse ++ [c] := by simp
  rw [h1, stripLeft_append_last hc, List.reverse_append]
  simp only [List.reverse_cons, List.reverse_nil, List.nil_append, List.singleton_append]
  exact stripLeft_cons hc

theorem pyStrip_cons_last {c d : Char} {m : Str}
    (hc : isPyWS c = false) (hd : isPyWS d = false) :
    pyStrip (c :: (m ++ [d])) = c :: (m ++ [d]) := by
  rw [pyStrip_cons hc]
  have h1 : (m ++ [d]).reverse = d :: m.reverse := by simp
  rw [h1, stripLeft_cons hd]
  simp

theorem pyStrip_head_ne {c c' : Char} {r r' : Str}
    (hc : isPyWS c = false) (hne : c ≠ c') :
    pyStrip (c :: r) ≠ c' :: r' := by
  rw [pyStrip_cons hc]
  intro h
  injection h with h1 _
  exact hne h1

/-- Every character `natToChars` emits is a decimal digit. -/
theorem natToChars_digits (n : Nat) : ∀ c ∈ natToChars n, isDigitCh c = true := by
  induction n using Nat.strong_induction_on with
  | _ n ih =>
    rw [natToChars]
    by_cases h : n < 10
    · simp only [h, if_true, List.mem_singleton]
      rintro c rfl
      interval_cases n <;> decide
    · simp only [h, if_false, List.mem_append, List.mem_singleton]
      rintro c (hc | rfl)
      · exact ih (n / 10) (Nat.div_lt_self (by omega) (by omega)) c hc
      · have : n % 10 < 10 := Nat.mod_lt _ (by omega)
        interval_cases h10 : n % 10 <;> simp_all <;> decide

theorem natToChars_ne_nil (n : Nat) : natToChars n ≠ [] := by
  rw [natToChars]
  by_cases h : n < 10 <;> simp [h]

theorem digitCh_toNat {d : Nat} (h : d < 10) : (digitCh d).toNat = 48 + d := by
  interval_cases d <;> decide

/-- Reading the decimal rendering back recovers the number. -/
theorem digitsVal_natToChars (n : Nat) : digitsVal (natToChars n) = n := by
  induction n using Nat.strong_induction_on with
  | _ n ih =>
    rw [natToChars]
    by_cases h : n < 10
    · simp only [h, if_true]
      simp [digitsVal, digitCh_toNat h]
    · simp only [h, if_false]
      unfold digitsVal
      rw [List.foldl_append]
      have := ih (n / 10) (Nat.div_lt_self (by omega) (by omega))
      unfold digitsVal at this
      rw [this]
      simp only [List.foldl_cons, List.foldl_nil]
      rw [digitCh_toNat (Nat.mod_lt _ (by omega))]
      omega

theorem pyStrip_natToChars (n : Nat) : pyStrip (natToChars n) = natToChars n := by
  obtain ⟨c, r, hcr⟩ : ∃ c r, natToChars n = c :: r := by
    cases h : natToChars n with
    | nil => exact absurd h (natToChars_ne_nil n)
    | cons c r => exact ⟨c, r, rfl⟩
  obtain ⟨u, d, hud⟩ : ∃ u d, natToChars n = u ++ [d] := by
    rw [natToChars]
    by_cases h : n < 10
    · exact ⟨[], digitCh n, by simp [h]⟩
    · exact ⟨natToChars (n / 10), digitCh (n % 10), by simp [h]⟩
  have hc : isDigitCh c = true := natToChars_digits n c (by rw [hcr]; exact List.mem_cons_self c r)
  have hd : isDigitCh d = true := natToChars_digits n d (by rw [hud]; simp)
  cases u with
  | nil =>
    have h1 : natToChars n = [d] := by simpa using hud
    rw [h1, pyStrip_cons (digit_not_ws hd)]
    simp [stripLeft]
  | cons u0 ut =>
    have hceq : c = u0 := by
      rw [hcr] at hud
      simpa using congrArg (fun l => l.head?) hud
    rw [hud]
    exact pyStrip_cons_last (hceq ▸ digit_not_ws hc) (digit_not_ws hd)

/-- `pyInt` round-trips the decimal rendering. -/
theorem pyInt_natToChars (n : Nat) : pyInt (natToChars n) = some n := by
  unfold pyInt
  rw [pyStrip_natToChars]
  rw [if_pos ⟨natToChars_ne_nil n, natToChars_digits n⟩]
  rw [digitsVal_natToChars]

theorem combinations_length {α : Type} :
    ∀ (k : Nat) (l : List α), (combinations k l).length = Nat.choose l.length k := by
  intro k
  induction k with
  | zero => intro l; simp [combinations]
  | succ k ih =>
    intro l
    induction l with
    | nil => simp [combinations]
    | cons x xs ihl =>
      simp only [combinations, List.length_append, List.length_map, ih, ihl,
        List.length_cons]
      rw [Nat.choose_succ_succ]

theorem combinations_subset {α : Type} :
    ∀ (k : Nat) (l : List α), ∀ c ∈ combinations k l, c ⊆ l := by
  intro k
  induction k with
  | zero => intro l c hc; simp [combinations] at hc; simp [hc]
  | succ k ih =>
    intro l
    induction l with
    | nil => intro c hc; simp [combinations] at hc
    | cons x xs ihl =>
      intro c hc
      simp only [combinations, List.mem_append, List.mem_map] at hc
      rcases hc with ⟨c', hc', rfl⟩ | hc
      · intro a ha
        rcases List.mem_cons.mp ha with rfl | ha
        · exact List.mem_cons_self _ _
        · exact List.mem_cons_of_mem _ (ih xs c' hc' ha)
      · exact fun a ha => List.mem_cons_of_mem _ (ihl c hc ha)

theorem combinations_mem_length {α : Type} :
    ∀ (k : Nat) (l : List α), ∀ c ∈ combinations k l, c.length = k := by
  intro k
  induction k with
  | zero => intro l c hc; simp [combinations] at hc; simp [hc]
  | succ k ih =>
    intro l
    induction l with
    | nil => intro c hc; simp [combinations] at hc
    | cons x xs ihl =>
      intro c hc
      simp only [combinations, List.mem_append, List.mem_map] at hc
      rcases hc with ⟨c', hc', rfl⟩ | hc
      · simp [ih xs c' hc']
      · exact ihl c hc

theorem combinations_head {α : Type} {k : Nat} {l : List α} {c : List α}
    (hc : c ∈ combinations (k + 1) l) : ∃ y c', c = y :: c' ∧ y ∈ l := by
  have hlen := combinations_mem_length (k + 1) l c hc
  cases c with
  | nil => simp at hlen
  | cons y c' =>
    exact ⟨y, c', rfl, combinations_subset (k + 1) l _ hc (List.mem_cons_self _ _)⟩

theorem combinations_nodup {α : Type} :
    ∀ (k : Nat) (l : List α), l.Nodup → (combinations k l).Nodup := by
  intro k
  induction k with
  | zero => intro l _; simp [combinations]
  | succ k ih =>
    intro l
    induction l with
    | nil => intro _; simp [combinations]
    | cons x xs ihl =>
      intro hnd
      have hx : x ∉ xs := (List.nodup_cons.mp hnd).1
      have hxs : xs.Nodup := (List.nodup_cons.mp hnd).2
      simp only [combinations]
      rw [List.nodup_append]
      refine ⟨?_, ihl hxs, ?_⟩
      · rw [List.nodup_map_iff_inj_on (ih xs hxs)]
        intro c₁ _ c₂ _ h
        injection h
      · intro a ha hb
        simp only [List.mem_map] at ha
        obtain ⟨c', _, rfl⟩ := ha
        obtain ⟨y, b', hb', hy⟩ := combinations_head hb
        injection hb' with h1 _
        exact hx (h1.symm ▸ hy)

theorem combinations_pairwise_lex {α : Type} {r : α → α → Prop} :
    ∀ (k : Nat) (l : List α), l.Pairwise r →
      (combinations k l).Pairwise (List.Lex r) := by
  intro k
  induction k with
  | zero => intro l _; simp [combinations]
  | succ k ih =>
    intro l
    induction l with
    | nil => intro _; simp [combinations]
    | cons x xs ihl =>
      intro hpw
      have hx : ∀ y ∈ xs, r x y := (List.pairwise_cons.mp hpw).1
      have hxs : xs.Pairwise r := (List.pairwise_cons.mp hpw).2
      simp only [combinations]
      rw [List.pairwise_append]
      refine ⟨?_, ihl hxs, ?_⟩
      · rw [List.pairwise_map]
        exact (ih xs hxs).imp fun h => List.Lex.cons h
      · intro a ha b hb
        simp only [List.mem_map] at ha
        obtain ⟨c', _, rfl⟩ := ha
        obtain ⟨y, b', rfl, hy⟩ := combinations_head hb
        exact List.Lex.rel (hx y hy)

theorem available_keys_nodup : available_keys.Nodup := by decide

theorem available_keys_pairwise : available_keys.Pairwise keyEarlier := by decide

theorem available_keys_length : available_keys.length = 23 := by rfl

theorem choose_23_5 : Nat.choose 23 5 = 33649 := by decide

theorem key_combinations_length : key_combinations.length = 33649 := by
  rw [key_combinations, List.length_map, combinations_length, available_keys_length,
    choose_23_5]

/-- C7: for the fixed 23-key alphabet and arity 5, the chord generator
produces exactly `C(23, 5) = 33649` chords, all distinct, enumerated in
lexicographic order of alphabet position.  (The generator is a pure
function of the alphabet, so running it twice yields the identical
slot-to-chord mapping by definitional equality.) -/
theorem C7_key_combination_space :
    (combinations 5 available_keys).length = Nat.choose available_keys.length 5 ∧
    Nat.choose available_keys.length 5 = 33649 ∧
    (combinations 5 available_keys).Nodup ∧
    (combinations 5 available_keys).Pairwise (List.Lex keyEarlier) ∧
    key_combinations = (combinations 5 available_keys).map joinPlus :=
  ⟨combinations_length 5 available_keys,
    by rw [available_keys_length, choose_23_5],
    combinations_nodup 5 available_keys available_keys_nodup,
    combinations_pairwise_lex 5 available_keys available_keys_pairwise,
    rfl⟩

theorem numKeyCombos_eq : numKeyCombos = 33649 := key_combinations_length

theorem assocUpdate_append {κ ν : Type} [DecidableEq κ]
    {l : List (κ × ν)} {k : κ} {v : ν} (h : ∀ p ∈ l, p.1 ≠ k) :
    assocUpdate l k v = l ++ [(k, v)] := by
  induction l with
  | nil => rfl
  | cons p rest ih =>
    obtain ⟨k', v'⟩ := p
    rw [assocUpdate, if_neg (h (k', v') (List.mem_cons_self _ _))]
    rw [ih fun q hq => h q (List.mem_cons_of_mem _ hq)]
    rfl

theorem initialize_bind_mappings_go_spec :
    ∀ (items : List (Int × Str)) (i0 : Nat) (st : CraftState),
      2 * (i0 + items.length) ≤ numKeyCombos + 1 →
      (items.map Prod.fst).Nodup →
      (∀ p ∈ st.bind_mapping, p.1 ∉ items.map Prod.fst) →
      (initialize_bind_mappings_go i0 items st).bind_mapping =
        st.bind_mapping ++ enumPairs i0 items := by
  intro items
  induction items with
  | nil => intro i0 st _ _ _; simp [initialize_bind_mappings_go, enumPairs]
  | cons item rest ih =>
    intro i0 st hcap hnd hdisj
    obtain ⟨itemId, nm⟩ := item
    rw [initialize_bind_mappings_go]
    have hbr : ¬ i0 * 2 ≥ numKeyCombos := by
      simp only [List.length_cons] at hcap
      omega
    rw [if_neg hbr]
    have hfresh : ∀ p ∈ st.bind_mapping, p.1 ≠ itemId := by
      intro p hp heq
      exact hdisj p hp (by simp [heq])
    have hnd' : (rest.map Prod.fst).Nodup := by
      simp only [List.map_cons, List.nodup_cons] at hnd
      exact hnd.2
    have hhd : itemId ∉ rest.map Prod.fst := by
      simp only [List.map_cons, List.nodup_cons] at hnd
      exact hnd.1
    rw [ih (i0 + 1) _ (by simp only [List.length_cons] at hcap; omega) hnd' ?_]
    · rw [assocUpdate_append hfresh]
      simp [enumPairs]
    · intro p hp
      simp only [assocUpdate_append hfresh, List.mem_append, List.mem_singleton] at hp
      rcases hp with hp | rfl
      · intro hmem
        exact hdisj p hp (by simp [hmem])
      · exact hhd

theorem enumPairs_lookup :
    ∀ (items : List (Int × Str)) (i0 : Nat), (items.map Prod.fst).Nodup →
      ∀ (i : Nat) (h : i < items.length),
        assocLookup (enumPairs i0 items) (items.get ⟨i, h⟩).1 =
          some ((i0 + i) * 2, (i0 + i) * 2 + 1) := by
  intro items
  induction items with
  | nil => intro i0 _ i h; simp at h
  | cons item rest ih =>
    intro i0 hnd i h
    obtain ⟨itemId, nm⟩ := item
    cases i with
    | zero =>
      simp [enumPairs, assocLookup]
    | succ i =>
      simp only [List.map_cons, List.nodup_cons] at hnd
      have hget : ((itemId, nm) :: rest).get ⟨i + 1, h⟩ = rest.get ⟨i, by simpa using h⟩ := rfl
      rw [hget, enumPairs, assocLookup]
      have hne : itemId ≠ (rest.get ⟨i, by simpa using h⟩).1 := by
        intro heq
        exact hnd.1 (heq ▸ List.mem_map_of_mem Prod.fst (List.get_mem rest i _))
      rw [if_neg hne]
      have := ih (i0 + 1) hnd.2 i (by simpa using h)
      rw [this]
      ring_nf

theorem assocLookup_eq_none_iff {κ ν : Type} [DecidableEq κ]
    {l : List (κ × ν)} {k : κ} :
    assocLookup l k = none ↔ k ∉ l.map Prod.fst := by
  induction l with
  | nil => simp [assocLookup]
  | cons p rest ih =>
    obtain ⟨k', v'⟩ := p
    by_cases h : k' = k
    · subst h
      simp [assocLookup]
    · simp [assocLookup, h, ih, Ne.symm h]

theorem assocLookup_mem {κ ν : Type} [DecidableEq κ]
    {l : List (κ × ν)} {k : κ} {v : ν} (h : assocLookup l k = some v) :
    (k, v) ∈ l := by
  induction l with
  | nil => simp [assocLookup] at h
  | cons p rest ih =>
    obtain ⟨k', v'⟩ := p
    by_cases hk : k' = k
    · subst hk
      rw [assocLookup, if_pos rfl] at h
      injection h with h
      simp [← h]
    · rw [assocLookup, if_neg hk] at h
      exact List.mem_cons_of_mem _ (ih h)

theorem assocLookup_append_last {κ ν : Type} [DecidableEq κ]
    {l : List (κ × ν)} {k : κ} {v : ν} (h : k ∉ l.map Prod.fst) :
    assocLookup (l ++ [(k, v)]) k = some v := by
  induction l with
  | nil => simp [assocLookup]
  | cons p rest ih =>
    obtain ⟨k', v'⟩ := p
    simp only [List.map_cons, List.mem_cons] at h
    push_neg at h
    rw [List.cons_append, assocLookup, if_neg (Ne.symm h.1), ih h.2]

theorem assocLookup_append_other {κ ν : Type} [DecidableEq κ]
    {l₁ l₂ : List (κ × ν)} {k : κ} (h : k ∉ l₁.map Prod.fst) :
    assocLookup (l₁ ++ l₂) k = assocLookup l₂ k := by
  induction l₁ with
  | nil => simp
  | cons p rest ih =>
    obtain ⟨k', v'⟩ := p
    simp only [List.map_cons, List.mem_cons] at h
    push_neg at h
    rw [List.cons_append, assocLookup, if_neg (Ne.symm h.1), ih h.2]

theorem find?_snd_spec {l : List (Str × Nat)} {n : Nat}
    (h : n ∈ l.map Prod.snd) :
    ∃ k, l.find? (fun p => p.2 == n) = some (k, n) ∧ (k, n) ∈ l := by
  induction l with
  | nil => simp at h
  | cons p rest ih =>
    obtain ⟨k', v'⟩ := p
    by_cases hv : v' = n
    · subst hv
      exact ⟨k', by simp [List.find?], List.mem_cons_self _ _⟩
    · have hfalse : ((k', v').2 == n) = false := by simpa using hv
      simp only [List.map_cons, List.mem_cons] at h
      rcases h with h | h
      · exact absurd h.symm hv
      · obtain ⟨k, hk, hmem⟩ := ih h
        refine ⟨k, ?_, List.mem_cons_of_mem _ hmem⟩
        rw [List.find?, hfalse, hk]

theorem eraseP_key_split {l : List (Str × Nat)} {k : Str} {v : Nat}
    (hnd : (l.map Prod.fst).Nodup) (hm : (k, v) ∈ l) :
    ∃ l₁ l₂, l = l₁ ++ (k, v) :: l₂ ∧
      l.eraseP (fun p => p.1 == k) = l₁ ++ l₂ ∧
      k ∉ l₁.map Prod.fst ∧ k ∉ l₂.map Prod.fst := by
  induction l with
  | nil => simp at hm
  | cons p rest ih =>
    obtain ⟨k', v'⟩ := p
    have hnd2 : k' ∉ rest.map Prod.fst ∧ (rest.map Prod.fst).Nodup := by
      rw [List.map_cons, List.nodup_cons] at hnd
      exact ⟨hnd.1, hnd.2⟩
    by_cases hk : k' = k
    · subst hk
      have hv : v' = v := by
        rcases List.mem_cons.mp hm with h | h
        · exact congrArg Prod.snd h.symm
        · exact absurd (List.mem_map_of_mem Prod.fst h) hnd2.1
      subst hv
      refine ⟨[], rest, by simp, ?_, by simp, hnd2.1⟩
      rw [List.eraseP_cons]
      simp
    · have hm' : (k, v) ∈ rest := by
        rcases List.mem_cons.mp hm with h | h
        · exact absurd (congrArg Prod.fst h.symm) hk
        · exact h
      obtain ⟨l₁, l₂, heq, herase, h1, h2⟩ := ih hnd2.2 hm'
      refine ⟨(k', v') :: l₁, l₂, by simp [heq], ?_, ?_, h2⟩
      · rw [List.eraseP_cons]
        have hfalse : (((k', v').1 == k) : Bool) = false := by simpa using hk
        simp only [hfalse]
        rw [herase]
        simp
      · simp only [List.map_cons, List.mem_cons]
        push_neg
        exact ⟨Ne.symm hk, h1⟩

theorem dynInv_init : DynInv initDynState := by
  constructor <;> simp [initDynState, CHAT_BINDS_START, CHAT_BINDS_END]

theorem mkBindKey_ne_nil (ct sv : Str) : mkBindKey ct sv ≠ [] := by
  cases ct <;> simp [mkBindKey]

/-- Cache hit: the stored slot is returned and only the recency order
changes (the slot moves to the tail). -/
theorem getOrCreate_hit (st : DynState) (ct sv : Str) (idx : Nat)
    (hinv : DynInv st)
    (hhit : assocLookup st.dynamic_binds (mkBindKey ct sv) = some idx) :
    get_or_create_dynamic_bind st ct sv =
      some (idx, { st with dynamic_bind_order :=
        st.dynamic_bind_order.erase idx ++ [idx] }) := by
  have hmem : idx ∈ st.dynamic_bind_order :=
    (hinv.mem_iff idx).mpr (List.mem_map_of_mem Prod.snd (assocLookup_mem hhit))
  unfold get_or_create_dynamic_bind
  rw [hhit]
  simp [hmem]

theorem dynInv_hit (st : DynState) (idx : Nat) (hinv : DynInv st)
    (hmem : idx ∈ st.dynamic_bind_order) :
    DynInv { st with dynamic_bind_order := st.dynamic_bind_order.erase idx ++ [idx] } := by
  have horder := hinv.order_nodup
  constructor
  · rw [List.nodup_append]
    refine ⟨horder.erase idx, List.nodup_singleton idx, ?_⟩
    intro a ha hb
    rw [List.mem_singleton] at hb
    subst hb
    exact ((horder.mem_erase_iff).mp ha).1 rfl
  · intro n
    simp only [List.mem_append, List.mem_singleton, horder.mem_erase_iff]
    constructor
    · rintro (⟨_, hn⟩ | rfl)
      · exact (hinv.mem_iff n).mp hn
      · exact (hinv.mem_iff _).mp hmem
    · intro hn
      by_cases he : n = idx
      · exact Or.inr he
      · exact Or.inl ⟨he, (hinv.mem_iff n).mpr hn⟩
  · exact hinv.snd_nodup
  · exact hinv.fst_nodup
  · simp only [List.length_append, List.length_singleton,
      List.length_erase_of_mem hmem]
    have h1 : 1 ≤ st.dynamic_bind_order.length := List.length_pos.mpr (by
      intro h; rw [h] at hmem; simp at hmem)
    have h2 := hinv.len_eq
    omega
  · exact hinv.len_le
  · exact hinv.next_spec
  · exact hinv.slots_lt
  · exact hinv.keys_ne

/-- Cache miss with spare capacity: the `next_dynamic_bind` counter is
consumed (wrapping past the end of the range), the new entry is
appended, and the slot is marked used. -/
theorem getOrCreate_fresh (st : DynState) (ct sv : Str)
    (hmiss : assocLookup st.dynamic_binds (mkBindKey ct sv) = none)
    (hlt : st.dynamic_binds.length < CHAT_BINDS_END - CHAT_BINDS_START + 1) :
    get_or_create_dynamic_bind st ct sv =
      some (st.next_dynamic_bind,
        { dynamic_binds := assocUpdate st.dynamic_binds (mkBindKey ct sv) st.next_dynamic_bind,
          dynamic_bind_order := st.dynamic_bind_order ++ [st.next_dynamic_bind],
          next_dynamic_bind :=
            if st.next_dynamic_bind + 1 > CHAT_BINDS_END then CHAT_BINDS_START
            else st.next_dynamic_bind + 1,
          used_binds := setAdd st.used_binds st.next_dynamic_bind }) := by
  unfold get_or_create_dynamic_bind
  rw [hmiss]
  rw [if_neg (by omega)]

theorem dynInv_fresh (st : DynState) (ct sv : Str) (hinv : DynInv st)
    (hmiss : assocLookup st.dynamic_binds (mkBindKey ct sv) = none)
    (hlt : st.dynamic_binds.length < CHAT_BINDS_END - CHAT_BINDS_START + 1) :
    DynInv
      { dynamic_binds := assocUpdate st.dynamic_binds (mkBindKey ct sv) st.next_dynamic_bind,
        dynamic_bind_order := st.dynamic_bind_order ++ [st.next_dynamic_bind],
        next_dynamic_bind :=
          if st.next_dynamic_bind + 1 > CHAT_BINDS_END then CHAT_BINDS_START
          else st.next_dynamic_bind + 1,
        used_binds := setAdd st.used_binds st.next_dynamic_bind } := by
  have hkey : mkBindKey ct sv ∉ st.dynamic_binds.map Prod.fst :=
    assocLookup_eq_none_iff.mp hmiss
  have hnext : st.next_dynamic_bind = CHAT_BINDS_START + st.dynamic_binds.length := by
    rcases hinv.next_spec with h | h
    · exact h
    · omega
  have hupd : assocUpdate st.dynamic_binds (mkBindKey ct sv) st.next_dynamic_bind =
      st.dynamic_binds ++ [(mkBindKey ct sv, st.next_dynamic_bind)] :=
    assocUpdate_append (by
      intro p hp heq
      exact hkey (heq ▸ List.mem_map_of_mem Prod.fst hp))
  have hsnd_fresh : st.next_dynamic_bind ∉ st.dynamic_binds.map Prod.snd := by
    intro hmem
    obtain ⟨p, hp, hpeq⟩ := List.mem_map.mp hmem
    have := (hinv.slots_lt p hp).2
    omega
  have horder_fresh : st.next_dynamic_bind ∉ st.dynamic_bind_order :=
    fun hmem => hsnd_fresh ((hinv.mem_iff _).mp hmem)
  constructor
  · rw [List.nodup_append]
    exact ⟨hinv.order_nodup, List.nodup_singleton _, by
      intro a ha hb
      rw [List.mem_singleton] at hb
      exact horder_fresh (hb ▸ ha)⟩
  · intro n
    rw [hupd]
    simp only [List.mem_append, List.mem_singleton, List.map_append,
      List.map_cons, List.map_nil]
    rw [hinv.mem_iff n]
  · rw [hupd]
    simp only [List.map_append, List.map_cons, List.map_nil]
    rw [List.nodup_append]
    exact ⟨hinv.snd_nodup, by simp, by
      intro a ha hb
      simp only [List.mem_singleton] at hb
      exact hsnd_fresh (hb ▸ ha)⟩
  · rw [hupd]
    simp only [List.map_append, List.map_cons, List.map_nil]
    rw [List.nodup_append]
    exact ⟨hinv.fst_nodup, by simp, by
      intro a ha hb
      simp only [List.mem_singleton] at hb
      exact hkey (hb ▸ ha)⟩
  · rw [hupd]
    simp [hinv.len_eq]
  · rw [hupd]
    simp only [List.length_append, List.length_singleton]
    omega
  · rw [hupd]
    simp only [List.length_append, List.length_singleton]
    by_cases hb : st.next_dynamic_bind + 1 > CHAT_BINDS_END
    · right
      constructor
      · simp only [CHAT_BINDS_START, CHAT_BINDS_END] at *
        omega
      · simp [hb]
    · left
      rw [if_neg hb]
      omega
  · rw [hupd]
    intro p hp
    simp only [List.length_append, List.length_singleton]
    rcases List.mem_append.mp hp with hp | hp
    · have := hinv.slots_lt p hp
      omega
    · rw [List.mem_singleton] at hp
      subst hp
      simp only []
      omega
  · rw [hupd]
    intro p hp
    rcases List.mem_append.mp hp with hp | hp
    · exact hinv.keys_ne p hp
    · rw [List.mem_singleton] at hp
      subst hp
      exact mkBindKey_ne_nil ct sv

/-- Cache miss with the cache full: the head of the recency order is
popped, its entry is deleted, its slot is reused for the new key and
appended at the tail. -/
theorem getOrCreate_evict (st : DynState) (ct sv : Str) (hinv : DynInv st)
    (hmiss : assocLookup st.dynamic_binds (mkBindKey ct sv) = none)
    (hfull : st.dynamic_binds.length ≥ CHAT_BINDS_END - CHAT_BINDS_START + 1) :
    ∃ oldest restOrder k₀ l₁ l₂,
      st.dynamic_bind_order = oldest :: restOrder ∧
      st.dynamic_binds = l₁ ++ (k₀, oldest) :: l₂ ∧
      k₀ ∉ l₁.map Prod.fst ∧ k₀ ∉ l₂.map Prod.fst ∧
      get_or_create_dynamic_bind st ct sv =
        some (oldest,
          { dynamic_binds := (l₁ ++ l₂) ++ [(mkBindKey ct sv, oldest)],
            dynamic_bind_order := restOrder ++ [oldest],
            next_dynamic_bind := st.next_dynamic_bind,
            used_binds := setAdd st.used_binds oldest }) := by
  have hlen := hinv.len_eq
  cases horder : st.dynamic_bind_order with
  | nil =>
    exfalso
    rw [horder] at hlen
    simp only [List.length_nil] at hlen
    omega
  | cons oldest restOrder =>
    have hmem_ord : oldest ∈ st.dynamic_bind_order := by
      rw [horder]; exact List.mem_cons_self _ _
    have hsnd : oldest ∈ st.dynamic_binds.map Prod.snd := (hinv.mem_iff _).mp hmem_ord
    obtain ⟨k₀, hfind, hkmem⟩ := find?_snd_spec hsnd
    obtain ⟨l₁, l₂, hsplit, herase, h1, h2⟩ := eraseP_key_split hinv.fst_nodup hkmem
    have hk0ne : k₀ ≠ [] := hinv.keys_ne _ hkmem
    have hfreshkey : mkBindKey ct sv ∉ st.dynamic_binds.map Prod.fst :=
      assocLookup_eq_none_iff.mp hmiss
    have hupd : assocUpdate (l₁ ++ l₂) (mkBindKey ct sv) oldest =
        (l₁ ++ l₂) ++ [(mkBindKey ct sv, oldest)] := by
      refine assocUpdate_append ?_
      intro p hp heq
      refine hfreshkey (heq ▸ List.mem_map_of_mem Prod.fst ?_)
      rw [hsplit]
      rcases List.mem_append.mp hp with hp | hp
      · exact List.mem_append_left _ hp
      · exact List.mem_append_right _ (List.mem_cons_of_mem _ hp)
    refine ⟨oldest, restOrder, k₀, l₁, l₂, rfl, hsplit, h1, h2, ?_⟩
    unfold get_or_create_dynamic_bind
    rw [hmiss]
    simp only [ge_iff_le, hfull, if_true, horder, hfind, Option.map_some']
    rw [if_pos hk0ne, herase, hupd]

theorem dynInv_evict (st : DynState) (ct sv : Str) (hinv : DynInv st)
    (hmiss : assocLookup st.dynamic_binds (mkBindKey ct sv) = none)
    {oldest : Nat} {restOrder : List Nat} {k₀ : Str} {l₁ l₂ : List (Str × Nat)}
    (horder : st.dynamic_bind_order = oldest :: restOrder)
    (hsplit : st.dynamic_binds = l₁ ++ (k₀, oldest) :: l₂) :
    DynInv
      { dynamic_binds := (l₁ ++ l₂) ++ [(mkBindKey ct sv, oldest)],
        dynamic_bind_order := restOrder ++ [oldest],
        next_dynamic_bind := st.next_dynamic_bind,
        used_binds := setAdd st.used_binds oldest } := by
  have hfreshkey : mkBindKey ct sv ∉ st.dynamic_binds.map Prod.fst :=
    assocLookup_eq_none_iff.mp hmiss
  have horder_nodup : (oldest :: restOrder).Nodup := horder ▸ hinv.order_nodup
  have hsnd_nodup : (l₁.map Prod.snd ++ oldest :: l₂.map Prod.snd).Nodup := by
    have := hinv.snd_nodup
    rw [hsplit] at this
    simpa using this
  have hfst_nodup : (l₁.map Prod.fst ++ k₀ :: l₂.map Prod.fst).Nodup := by
    have := hinv.fst_nodup
    rw [hsplit] at this
    simpa using this
  have hperm : ((l₁.map Prod.snd ++ l₂.map Prod.snd) ++ [oldest]).Perm
      (l₁.map Prod.snd ++ oldest :: l₂.map Prod.snd) := by
    refine List.Perm.trans List.perm_append_comm ?_
    rw [List.singleton_append]
    exact List.perm_middle.symm
  have hlen_split : st.dynamic_binds.length = l₁.length + l₂.length + 1 := by
    rw [hsplit]; simp; omega
  constructor
  · rw [List.nodup_append]
    refine ⟨(List.nodup_cons.mp horder_nodup).2, List.nodup_singleton _, ?_⟩
    intro a ha hb
    rw [List.mem_singleton] at hb
    subst hb
    exact (List.nodup_cons.mp horder_nodup).1 ha
  · intro n
    have hmem1 : n ∈ st.dynamic_bind_order ↔ n ∈ st.dynamic_binds.map Prod.snd :=
      hinv.mem_iff n
    rw [horder, hsplit] at hmem1
    simp only [List.mem_cons, List.map_append, List.map_cons, List.mem_append] at hmem1
    simp only [List.map_append, List.map_cons, List.map_nil, List.mem_append,
      List.mem_cons, List.not_mem_nil, or_false]
    tauto
  · have : (((l₁ ++ l₂) ++ [(mkBindKey ct sv, oldest)]).map Prod.snd) =
        (l₁.map Prod.snd ++ l₂.map Prod.snd) ++ [oldest] := by simp
    rw [this]
    exact (List.Perm.nodup_iff hperm).mpr hsnd_nodup
  · have heq : (((l₁ ++ l₂) ++ [(mkBindKey ct sv, oldest)]).map Prod.fst) =
        (l₁.map Prod.fst ++ l₂.map Prod.fst) ++ [mkBindKey ct sv] := by simp
    rw [heq]
    rw [List.nodup_append]
    refine ⟨?_, List.nodup_singleton _, ?_⟩
    · have hsub : (l₁.map Prod.fst ++ l₂.map Prod.fst).Sublist
          (l₁.map Prod.fst ++ k₀ :: l₂.map Prod.fst) :=
        List.Sublist.append_left (List.sublist_cons_self _ _) _
      exact hfst_nodup.sublist hsub
    · intro a ha hb
      rw [List.mem_singleton] at hb
      subst hb
      refine hfreshkey ?_
      rw [hsplit]
      simp only [List.map_append, List.map_cons, List.mem_append, List.mem_cons]
      rcases List.mem_append.mp ha with h | h
      · exact Or.inl h
      · exact Or.inr (Or.inr h)
  · have hle := hinv.len_eq
    rw [horder, hsplit] at hle
    simp only [List.length_cons, List.length_append] at hle
    simp only [List.length_append, List.length_singleton]
    omega
  · have := hinv.len_le
    simp only [List.length_append, List.length_singleton]
    omega
  · have := hinv.next_spec
    simp only [List.length_append, List.length_singleton]
    rcases this with h | h
    · left; omega
    · right; constructor <;> omega
  · intro p hp
    simp only [List.length_append, List.length_singleton]
    rcases List.mem_append.mp hp with hp | hp
    · have hmem : p ∈ st.dynamic_binds := by
        rw [hsplit]
        rcases List.mem_append.mp hp with h | h
        · exact List.mem_append_left _ h
        · exact List.mem_append_right _ (List.mem_cons_of_mem _ h)
      have := hinv.slots_lt p hmem
      omega
    · rw [List.mem_singleton] at hp
      subst hp
      have hmem : (k₀, oldest) ∈ st.dynamic_binds := by
        rw [hsplit]; exact List.mem_append_right _ (List.mem_cons_self _ _)
      have := hinv.slots_lt _ hmem
      simp only at this ⊢
      omega
  · intro p hp
    rcases List.mem_append.mp hp with hp | hp
    · refine hinv.keys_ne p ?_
      rw [hsplit]
      rcases List.mem_append.mp hp with h | h
      · exact List.mem_append_left _ h
      · exact List.mem_append_right _ (List.mem_cons_of_mem _ h)
    · rw [List.mem_singleton] at hp
      subst hp
      exact mkBindKey_ne_nil ct sv

/-- From any invariant-satisfying state, `get_or_create_dynamic_bind`
succeeds and preserves the invariant. -/
theorem getOrCreate_total (st : DynState) (ct sv : Str) (hinv : DynInv st) :
    ∃ idx st', get_or_create_dynamic_bind st ct sv = some (idx, st') ∧ DynInv st' := by
  cases hlook : assocLookup st.dynamic_binds (mkBindKey ct sv) with
  | some idx =>
    refine ⟨idx, _, getOrCreate_hit st ct sv idx hinv hlook, ?_⟩
    exact dynInv_hit st idx hinv
      ((hinv.mem_iff idx).mpr (List.mem_map_of_mem Prod.snd (assocLookup_mem hlook)))
  | none =>
    by_cases hfull : st.dynamic_binds.length ≥ CHAT_BINDS_END - CHAT_BINDS_START + 1
    · obtain ⟨oldest, restOrder, k₀, l₁, l₂, horder, hsplit, _, _, heq⟩ :=
        getOrCreate_evict st ct sv hinv hlook hfull
      exact ⟨oldest, _, heq, dynInv_evict st ct sv hinv hlook horder hsplit⟩
    · refine ⟨st.next_dynamic_bind, _, getOrCreate_fresh st ct sv hlook (by omega), ?_⟩
      exact dynInv_fresh st ct sv hinv hlook (by omega)

theorem dynInv_foldl (calls : List (Str × Str)) :
    ∀ st : DynState, DynInv st →
      DynInv (calls.foldl
        (fun st c =>
          match get_or_create_dynamic_bind st c.1 c.2 with
          | some (_, st') => st'
          | none => st) st) := by
  induction calls with
  | nil => intro st h; exact h
  | cons c rest ih =>
    intro st h
    rw [List.foldl_cons]
    obtain ⟨idx, st', heq, hinv'⟩ := getOrCreate_total st c.1 c.2 h
    rw [heq]
    exact ih st' hinv'

theorem dynInv_runCalls (calls : List (Str × Str)) : DynInv (runCalls calls) :=
  dynInv_foldl calls initDynState dynInv_init

/-! ### Claim C2 -/

/-- C2: after any sequence of `get_or_create_dynamic_bind` calls
starting from the empty cache, the number of dynamic-bind entries
equals the length of the recency order, both never exceed the capacity
of the dynamic (chat) range, and every slot that appears in the entry
map appears exactly once in the order. -/
theorem C2_dynamic_cache_invariants (calls : List (Str × Str)) :
    (runCalls calls).dynamic_binds.length = (runCalls calls).dynamic_bind_order.length ∧
    (runCalls calls).dynamic_binds.length ≤ CHAT_BINDS_END - CHAT_BINDS_START + 1 ∧
    (runCalls calls).dynamic_bind_order.length ≤ CHAT_BINDS_END - CHAT_BINDS_START + 1 ∧
    ∀ n ∈ (runCalls calls).dynamic_binds.map Prod.snd,
      (runCalls calls).dynamic_bind_order.count n = 1 := by
  have hinv := dynInv_runCalls calls
  refine ⟨hinv.len_eq.symm, hinv.len_le, hinv.len_eq ▸ hinv.len_le, ?_⟩
  intro n hn
  exact List.count_eq_one_of_mem hinv.order_nodup ((hinv.mem_iff n).mpr hn)

/-! ### Claim C3 -/

/-- C3: on a miss with the cache full, the head of the recency order
(the least-recently-touched slot) is evicted: its entry disappears, the
slot is reused for the new key and appended at the tail, the slot is
returned, and the new-bind signal fires. -/
theorem C3_full_cache_evicts_lru (st : DynState) (ct sv : Str)
    (hinv : DynInv st)
    (hfull : st.dynamic_binds.length = CHAT_BINDS_END - CHAT_BINDS_START + 1)
    (hmiss : assocLookup st.dynamic_binds (mkBindKey ct sv) = none) :
    wasNewBind st ct sv = true ∧
    ∃ oldest restOrder k₀ st',
      st.dynamic_bind_order = oldest :: restOrder ∧
      (k₀, oldest) ∈ st.dynamic_binds ∧
      get_or_create_dynamic_bind st ct sv = some (oldest, st') ∧
      assocLookup st'.dynamic_binds k₀ = none ∧
      assocLookup st'.dynamic_binds (mkBindKey ct sv) = some oldest ∧
      st'.dynamic_bind_order = restOrder ++ [oldest] ∧
      st'.dynamic_binds.length = st.dynamic_binds.length := by
  obtain ⟨oldest, restOrder, k₀, l₁, l₂, horder, hsplit, h1, h2, heq⟩ :=
    getOrCreate_evict st ct sv hinv hmiss (by omega)
  have hkeyfresh : mkBindKey ct sv ∉ st.dynamic_binds.map Prod.fst :=
    assocLookup_eq_none_iff.mp hmiss
  have hkmem : (k₀, oldest) ∈ st.dynamic_binds := by
    rw [hsplit]; exact List.mem_append_right _ (List.mem_cons_self _ _)
  have hk0_ne_new : k₀ ≠ mkBindKey ct sv := by
    intro hcontra
    exact hkeyfresh (hcontra ▸ List.mem_map_of_mem Prod.fst hkmem)
  refine ⟨by simp [wasNewBind, hmiss], oldest, restOrder, k₀, _, horder, hkmem, heq,
    ?_, ?_, rfl, ?_⟩
  · rw [assocLookup_eq_none_iff]
    simp only [List.map_append, List.map_cons, List.map_nil, List.mem_append,
      List.mem_cons, List.not_mem_nil, or_false]
    push_neg
    exact ⟨⟨fun h => absurd h h1, fun h => absurd h h2⟩, hk0_ne_new⟩
  · refine assocLookup_append_last ?_
    intro hmem
    refine hkeyfresh ?_
    rw [hsplit]
    rw [List.map_append] at hmem
    simp only [List.map_append, List.map_cons, List.mem_append, List.mem_cons]
    rcases List.mem_append.mp hmem with h | h
    · exact Or.inl h
    · exact Or.inr (Or.inr h)
  · have : st.dynamic_binds.length = l₁.length + l₂.length + 1 := by
      rw [hsplit]; simp; omega
    simp only [List.length_append, List.length_singleton]
    omega

/-! ### Claim C4 -/

/-- C4: on a hit, the stored slot is returned and moved to the tail of
the recency order; the entry map, the used-slot set and the next-slot
counter are unchanged, no new-bind signal fires, and the trigger
pipeline performs only the chord send (no config write, no reload). -/
theorem C4_hit_is_pure_lookup (st : DynState) (ct sv : Str) (idx : Nat)
    (hinv : DynInv st) (hsv : sv ≠ [])
    (hhit : assocLookup st.dynamic_binds (mkBindKey ct sv) = some idx) :
    ∃ st',
      get_or_create_dynamic_bind st ct sv = some (idx, st') ∧
      st'.dynamic_binds = st.dynamic_binds ∧
      st'.used_binds = st.used_binds ∧
      st'.next_dynamic_bind = st.next_dynamic_bind ∧
      st'.dynamic_bind_order = st.dynamic_bind_order.erase idx ++ [idx] ∧
      wasNewBind st ct sv = false ∧
      ∀ writeOk reloadOk sendOk,
        trigger_chat_command st ct sv writeOk reloadOk sendOk =
          (sendOk, [Effect.sendChord idx], st') := by
  refine ⟨_, getOrCreate_hit st ct sv idx hinv hhit, rfl, rfl, rfl, rfl,
    by simp [wasNewBind, hhit], ?_⟩
  intro writeOk reloadOk sendOk
  unfold trigger_chat_command
  rw [if_neg hsv, getOrCreate_hit st ct sv idx hinv hhit]
  simp [wasNewBind, hhit]

/-! ### Claim C8 -/

/-- C8: whenever the trigger creates a new bind, the config write comes
before the reload request and before the chord send; if the write
fails, the whole action fails, no chord is sent, and the write is not
retried. -/
theorem C8_write_precedes_send (st : DynState) (ct sv : Str)
    (writeOk reloadOk sendOk : Bool) (hinv : DynInv st) (hsv : sv ≠ [])
    (hnew : wasNewBind st ct sv = true) :
    Effect.writeCfg ∈ (trigger_chat_command st ct sv writeOk reloadOk sendOk).2.1 ∧
    (∀ i slot,
      (trigger_chat_command st ct sv writeOk reloadOk sendOk).2.1.get? i =
          some (Effect.sendChord slot) →
      (∃ j, j < i ∧
        (trigger_chat_command st ct sv writeOk reloadOk sendOk).2.1.get? j =
          some Effect.writeCfg) ∧
      (∃ j, j < i ∧
        (trigger_chat_command st ct sv writeOk reloadOk sendOk).2.1.get? j =
          some Effect.reloadBinds)) ∧
    (∀ i,
      (trigger_chat_command st ct sv writeOk reloadOk sendOk).2.1.get? i =
          some Effect.reloadBinds →
      ∃ j, j < i ∧
        (trigger_chat_command st ct sv writeOk reloadOk sendOk).2.1.get? j =
          some Effect.writeCfg) ∧
    (writeOk = false →
      (trigger_chat_command st ct sv writeOk reloadOk sendOk).1 = false ∧
      (∀ slot,
        Effect.sendChord slot ∉ (trigger_chat_command st ct sv writeOk reloadOk sendOk).2.1) ∧
      (trigger_chat_command st ct sv writeOk reloadOk sendOk).2.1.count Effect.writeCfg = 1) := by
  obtain ⟨idx, st', heq, _⟩ := getOrCreate_total st ct sv hinv
  unfold trigger_chat_command
  rw [if_neg hsv, heq, hnew]
  cases writeOk with
  | false =>
    refine ⟨?_, ?_, ?_, ?_⟩
    · simp
    · intro i slot h
      simp only [Bool.false_eq_true, if_true, if_false] at h
      rcases i with _ | i <;> simp [List.get?] at h
    · intro i h
      simp only [Bool.false_eq_true, if_true, if_false] at h
      rcases i with _ | i <;> simp [List.get?] at h
    · intro _
      refine ⟨by simp, ?_, by simp⟩
      intro slot
      simp
  | true =>
    cases reloadOk with
    | false =>
      refine ⟨?_, ?_, ?_, ?_⟩
      · simp
      · intro i slot h
        simp only [if_true, Bool.false_eq_true, if_false] at h
        rcases i with _ | _ | _ | i <;> simp [List.get?] at h
      · intro i h
        simp only [if_true, Bool.false_eq_true, if_false] at h
        rcases i with _ | _ | _ | i <;> simp [List.get?] at h
        exact ⟨0, by omega, by simp [List.get?]⟩
      · intro h
        exact absurd h (by simp)
    | true =>
      refine ⟨?_, ?_, ?_, ?_⟩
      · simp
      · intro i slot h
        simp only [if_true] at h
        rcases i with _ | _ | _ | _ | i <;> simp [List.get?] at h
        refine ⟨⟨0, by omega, ?_⟩, ⟨2, by omega, ?_⟩⟩ <;> simp [List.get?]
      · intro i h
        simp only [if_true] at h
        rcases i with _ | _ | _ | _ | i <;> simp [List.get?] at h
        exact ⟨0, by omega, by simp [List.get?]⟩
      · intro h
        exact absurd h (by simp)

/-! ### Claims C5 and C6 -/

/-- C6: when `2N` does not exceed the crafting capacity, every catalog
item receives its own `(craftSlot, cancelSlot)` pair of adjacent
consecutive indices, in catalog order, and no two items share a slot. -/
theorem C6_crafting_pairs_disjoint (items : List (Int × Str))
    (hnd : (items.map Prod.fst).Nodup)
    (hcap : 2 * items.length ≤ CRAFTING_BINDS_END - CRAFTING_BINDS_START + 1) :
    (∀ (i : Nat) (hi : i < items.length),
      assocLookup (initialize_bind_mappings items).bind_mapping
          (items.get ⟨i, hi⟩).1 = some (i * 2, i * 2 + 1)) ∧
    (∀ i : Nat, i < items.length →
      CRAFTING_BINDS_START ≤ i * 2 ∧ i * 2 + 1 ≤ CRAFTING_BINDS_END) ∧
    (∀ i j : Nat, i < items.length → j < items.length → i ≠ j →
      i * 2 ≠ j * 2 ∧ i * 2 ≠ j * 2 + 1 ∧ i * 2 + 1 ≠ j * 2 ∧
      i * 2 + 1 ≠ j * 2 + 1) := by
  have hcap' : 2 * (0 + items.length) ≤ numKeyCombos + 1 := by
    rw [numKeyCombos_eq]
    simp only [CRAFTING_BINDS_END, CRAFTING_BINDS_START] at hcap
    omega
  have hgo := initialize_bind_mappings_go_spec items 0
    { bind_mapping := [], used_binds := [] } hcap' hnd (by simp)
  refine ⟨?_, ?_, ?_⟩
  · intro i hi
    unfold initialize_bind_mappings
    rw [hgo, List.nil_append]
    have := enumPairs_lookup items 0 hnd i hi
    simpa using this
  · intro i hi
    simp only [CRAFTING_BINDS_START, CRAFTING_BINDS_END] at *
    omega
  · intro i j _ _ hne
    omega

theorem overflowCatalog_nodup : (overflowCatalog.map Prod.fst).Nodup := by
  unfold overflowCatalog
  rw [List.map_map]
  refine List.Nodup.map ?_ (List.nodup_range 1501)
  intro a b h
  simpa using h

/-- C5 (evidence of the code bug): the loop in
`_initialize_bind_mappings` breaks only when the whole key-combination
space is exhausted, not when the `CRAFTING` range is: with 1501 catalog
items, the item at index 1500 is assigned the pair `(3000, 3001)`,
which lies beyond `CRAFTING_BINDS_END` inside the API range. -/
theorem C5_crafting_overflows_into_api_range :
    assocLookup (initialize_bind_mappings overflowCatalog).bind_mapping 1500 =
      some (3000, 3001) ∧
    CRAFTING_BINDS_END < 3000 ∧
    API_BINDS_START ≤ 3000 ∧ 3001 ≤ API_BINDS_END := by
  have hlen : overflowCatalog.length = 1501 := by
    unfold overflowCatalog
    rw [List.length_map, List.length_range]
  have hcap' : 2 * (0 + overflowCatalog.length) ≤ numKeyCombos + 1 := by
    rw [numKeyCombos_eq, hlen]
    omega
  have hgo := initialize_bind_mappings_go_spec overflowCatalog 0
    { bind_mapping := [], used_binds := [] } hcap' overflowCatalog_nodup (by simp)
  have hget : (overflowCatalog.get ⟨1500, by rw [hlen]; omega⟩).1 = (1500 : Int) := by
    unfold overflowCatalog
    rw [List.get_eq_getElem]
    simp only [List.getElem_map, List.getElem_range]
    rfl
  refine ⟨?_, by decide, by decide, by decide⟩
  unfold initialize_bind_mappings
  rw [hgo, List.nil_append]
  have := enumPairs_lookup overflowCatalog 0 overflowCatalog_nodup 1500
    (by rw [hlen]; omega)
  rw [hget] at this
  simpa using this

theorem C6_crafting_pairs_disjoint_witness :
    ((witCatalog.map Prod.fst).Nodup ∧
      2 * witCatalog.length ≤ CRAFTING_BINDS_END - CRAFTING_BINDS_START + 1) ∧
    (∀ (i : Nat) (hi : i < witCatalog.length),
      assocLookup (initialize_bind_mappings witCatalog).bind_mapping
          (witCatalog.get ⟨i, hi⟩).1 = some (i * 2, i * 2 + 1)) :=
  ⟨⟨by decide, by decide⟩,
    (C6_crafting_pairs_disjoint witCatalog (by decide) (by decide)).1⟩

/-! ### Witness states for the dynamic-cache claims -/

theorem natToChars_inj : Function.Injective natToChars := by
  intro a b h
  have ha := digitsVal_natToChars a
  have hb := digitsVal_natToChars b
  rw [h] at ha
  omega

theorem fullState_snd : fullState.dynamic_binds.map Prod.snd =
    (List.range 1000).map (fun i => 4000 + i) := by
  unfold fullState
  rw [List.map_map]
  rfl

theorem fullState_fst : fullState.dynamic_binds.map Prod.fst =
    (List.range 1000).map (fun i => lit "chat_say:" ++ natToChars i) := by
  unfold fullState
  rw [List.map_map]
  rfl

theorem dynInv_fullState : DynInv fullState := by
  have hinj : Function.Injective (fun i : Nat => 4000 + i) :=
    fun a b h => Nat.add_left_cancel h
  have hlen : fullState.dynamic_binds.length = 1000 := by
    unfold fullState
    rw [List.length_map, List.length_range]
  have horder : fullState.dynamic_bind_order =
      (List.range 1000).map (fun i => 4000 + i) := rfl
  refine ⟨?_, ?_, ?_, ?_, ?_, ?_, ?_, ?_, ?_⟩
  · rw [horder]
    exact List.Nodup.map hinj (List.nodup_range 1000)
  · intro n
    rw [fullState_snd, horder]
  · rw [fullState_snd]
    exact List.Nodup.map hinj (List.nodup_range 1000)
  · rw [fullState_fst]
    refine List.Nodup.map ?_ (List.nodup_range 1000)
    intro a b h
    exact natToChars_inj (List.append_cancel_left h)
  · rw [horder, hlen, List.length_map, List.length_range]
  · rw [hlen]
    simp only [CHAT_BINDS_START, CHAT_BINDS_END]
    omega
  · right
    rw [hlen]
    exact ⟨by decide, rfl⟩
  · intro p hp
    rw [hlen]
    unfold fullState at hp
    simp only [List.mem_map, List.mem_range] at hp
    obtain ⟨i, hi, rfl⟩ := hp
    simp only [CHAT_BINDS_START]
    omega
  · intro p hp
    unfold fullState at hp
    simp only [List.mem_map, List.mem_range] at hp
    obtain ⟨i, _, rfl⟩ := hp
    intro h
    have h2 := List.append_eq_nil.mp h
    exact natToChars_ne_nil i h2.2

theorem fullState_len : fullState.dynamic_binds.length =
    CHAT_BINDS_END - CHAT_BINDS_START + 1 := by
  unfold fullState
  rw [List.length_map, List.length_range]
  decide

theorem fullState_miss :
    assocLookup fullState.dynamic_binds (mkBindKey (lit "chat_say") []) = none := by
  rw [assocLookup_eq_none_iff, fullState_fst]
  intro hmem
  simp only [List.mem_map, List.mem_range] at hmem
  obtain ⟨i, _, heq⟩ := hmem
  have hkey : mkBindKey (lit "chat_say") [] = lit "chat_say:" := by decide
  rw [hkey] at heq
  have : lit "chat_say:" ++ natToChars i = lit "chat_say:" ++ [] := by
    simpa using heq
  exact natToChars_ne_nil i (List.append_cancel_left this)

theorem C3_full_cache_evicts_lru_witness :
    (DynInv fullState ∧
      fullState.dynamic_binds.length = CHAT_BINDS_END - CHAT_BINDS_START + 1 ∧
      assocLookup fullState.dynamic_binds (mkBindKey (lit "chat_say") []) = none) ∧
    (wasNewBind fullState (lit "chat_say") [] = true ∧
      ∃ oldest restOrder k₀ st',
        fullState.dynamic_bind_order = oldest :: restOrder ∧
        (k₀, oldest) ∈ fullState.dynamic_binds ∧
        get_or_create_dynamic_bind fullState (lit "chat_say") [] = some (oldest, st') ∧
        assocLookup st'.dynamic_binds k₀ = none ∧
        assocLookup st'.dynamic_binds (mkBindKey (lit "chat_say") []) = some oldest ∧
        st'.dynamic_bind_order = restOrder ++ [oldest] ∧
        st'.dynamic_binds.length = fullState.dynamic_binds.length) :=
  ⟨⟨dynInv_fullState, fullState_len, fullState_miss⟩,
    C3_full_cache_evicts_lru fullState (lit "chat_say") [] dynInv_fullState
      fullState_len fullState_miss⟩

theorem dynInv_stA : DynInv stA := by
  refine ⟨?_, ?_, ?_, ?_, ?_, ?_, ?_, ?_, ?_⟩
  · simp [stA]
  · intro n
    simp [stA]
  · simp [stA]
  · simp [stA]
  · simp [stA]
  · simp [stA, CHAT_BINDS_START, CHAT_BINDS_END]
  · left
    simp [stA, CHAT_BINDS_START]
  · intro p hp
    simp only [stA, List.mem_singleton] at hp
    subst hp
    simp [stA, CHAT_BINDS_START]
  · intro p hp
    simp only [stA, List.mem_singleton] at hp
    subst hp
    simp [lit]

theorem C4_hit_is_pure_lookup_witness :
    ((lit "hi" : Str) ≠ [] ∧
      assocLookup stA.dynamic_binds (mkBindKey (lit "chat_say") (lit "hi")) = some 4000) ∧
    ∃ st',
      get_or_create_dynamic_bind stA (lit "chat_say") (lit "hi") = some (4000, st') ∧
      st'.dynamic_binds = stA.dynamic_binds ∧
      st'.used_binds = stA.used_binds ∧
      st'.next_dynamic_bind = stA.next_dynamic_bind ∧
      trigger_chat_command stA (lit "chat_say") (lit "hi") true true true =
        (true, [Effect.sendChord 4000], st') := by
  have hhit : assocLookup stA.dynamic_binds (mkBindKey (lit "chat_say") (lit "hi")) =
      some 4000 := by decide
  refine ⟨⟨by decide, hhit⟩, ?_⟩
  obtain ⟨st', h1, h2, h3, h4, _, _, h7⟩ :=
    C4_hit_is_pure_lookup stA (lit "chat_say") (lit "hi") 4000 dynInv_stA (by decide) hhit
  exact ⟨st', h1, h2, h3, h4, h7 true true true⟩

theorem C8_write_precedes_send_witness :
    ((lit "hi" : Str) ≠ [] ∧
      wasNewBind initDynState (lit "chat_say") (lit "hi") = true) ∧
    ((trigger_chat_command initDynState (lit "chat_say") (lit "hi") false true true).1 = false ∧
      ∀ slot, Effect.sendChord slot ∉
        (trigger_chat_command initDynState (lit "chat_say") (lit "hi") false true true).2.1) := by
  refine ⟨⟨by decide, rfl⟩, ?_⟩
  have h := (C8_write_precedes_send initDynState (lit "chat_say") (lit "hi")
    false true true dynInv_init (by decide) rfl).2.2.2 rfl
  exact ⟨h.1, h.2.1⟩

theorem loadStep_skip {l : Str} (ls : LoadState) (h : SkipLine l) :
    loadStep ls l = ls := by
  unfold loadStep
  rw [if_neg h.1.1, if_neg h.1.2.1, if_neg h.1.2.2]
  by_cases hc : ls.inRust = true ∧ ls.inChat = true
  · rw [if_neg (by simpa using hc)]
    rw [h.2]
    simp
  · rw [if_pos (by simpa using hc)]

theorem foldl_loadStep_skip (lines : List Str) (h : ∀ l ∈ lines, SkipLine l) :
    ∀ ls : LoadState, lines.foldl loadStep ls = ls := by
  induction lines with
  | nil => intro ls; rfl
  | cons l rest ih =>
    intro ls
    rw [List.foldl_cons, loadStep_skip ls (h l (List.mem_cons_self _ _))]
    exact ih (fun l' hl' => h l' (List.mem_cons_of_mem _ hl')) ls

theorem stripLeft_append_head {d : Char} (hd : isPyWS d = false) (ys : Str) :
    ∀ xs : Str, stripLeft (xs ++ d :: ys) = stripLeft xs ++ d :: ys := by
  intro xs
  induction xs with
  | nil => simp [stripLeft, hd]
  | cons x t ih =>
    by_cases hx : isPyWS x = true
    · simp [stripLeft, hx, ih]
    · simp only [Bool.not_eq_true] at hx
      simp [stripLeft, hx]

theorem pyStrip_hash_space {c : Char} {r : Str} (hc : isPyWS c = false) :
    ∃ t, pyStrip ('#' :: ' ' :: c :: r) = '#' :: ' ' :: c :: t := by
  refine ⟨(stripLeft r.reverse).reverse, ?_⟩
  unfold pyStrip
  have h1 : ('#' :: ' ' :: c :: r).reverse = r.reverse ++ c :: [' ', '#'] := by simp
  rw [h1, stripLeft_append_head hc]
  have h2 : (stripLeft r.reverse ++ c :: [' ', '#']).reverse =
      '#' :: ' ' :: c :: (stripLeft r.reverse).reverse := by simp
  rw [h2]
  exact stripLeft_cons (by decide)

theorem leadsWith_cons_ne {a b : Char} {p s : Str} (h : a ≠ b) :
    leadsWith (a :: p) (b :: s) = false := by
  simp [leadsWith, h]

/-- Lines of the shape `# X...` with `X ∉ {'=', 'D'}` are skipped. -/
theorem skip_hash_space {c : Char} {r : Str} (hc : isPyWS c = false)
    (hne : c ≠ '=') (hnd : c ≠ 'D') : SkipLine ('#' :: ' ' :: c :: r) := by
  obtain ⟨t, ht⟩ := pyStrip_hash_space hc
  refine ⟨⟨?_, ?_, ?_⟩, ?_⟩
  · rw [ht]
    intro h
    injection h with _ h
    injection h with h _
    exact absurd h (by decide)
  · rw [ht]
    intro h
    injection h with _ h
    injection h with h _
    exact absurd h (by decide)
  · rw [ht]
    intro h
    injection h with _ h
    injection h with _ h
    injection h with h _
    exact hne h
  · rw [ht]
    have hpfx : lit "# Dynamic:" = '#' :: ' ' :: 'D' :: lit "ynamic:" := rfl
    rw [hpfx]
    simp only [leadsWith, decide_True, Bool.true_and]
    simp [hnd, Ne.symm hnd]

/-- Lines whose first character is neither whitespace nor `#` are
skipped. -/
theorem skip_head {a : Char} {r : Str} (ha : isPyWS a = false) (hha : a ≠ '#') :
    SkipLine (a :: r) := by
  rw [SkipLine, NeutralLine, pyStrip_cons ha]
  refine ⟨⟨?_, ?_, ?_⟩, ?_⟩
  · intro h; injection h with h _; exact hha h
  · intro h; injection h with h _; exact hha h
  · intro h; injection h with h _; exact hha h
  · have hpfx : lit "# Dynamic:" = '#' :: lit " Dynamic:" := rfl
    rw [hpfx]
    exact leadsWith_cons_ne (fun h => hha h.symm)

theorem skip_empty : SkipLine [] := by decide

theorem skip_format_bind (a b : Str) : SkipLine (format_bind_command a b) := by
  have h : format_bind_command a b =
      'b' :: (lit "ind [" ++ a ++ lit "] " ++ b) := by
    unfold format_bind_command
    simp [lit]
  rw [h]
  exact skip_head (by decide) (by decide)

theorem skip_reserved_comment (idx : Nat) :
    SkipLine (lit "# Reserved bind no." ++ natToChars idx) := by
  have h : lit "# Reserved bind no." ++ natToChars idx =
      '#' :: ' ' :: 'R' :: (lit "eserved bind no." ++ natToChars idx) := rfl
  rw [h]
  exact skip_hash_space (by decide) (by decide) (by decide)

theorem skip_reservedFiller (idxs used : List Nat) :
    ∀ l ∈ (reservedFiller idxs used).1, SkipLine l := by
  induction idxs generalizing used with
  | nil => intro l hl; simp [reservedFiller] at hl
  | cons idx rest ih =>
    intro l hl
    rw [reservedFiller] at hl
    by_cases hidx : idx < numKeyCombos
    · rw [if_pos hidx] at hl
      simp only [List.mem_cons] at hl
      rcases hl with rfl | rfl | hl
      · exact skip_reserved_comment idx
      · exact skip_format_bind _ _
      · exact ih _ l hl
    · rw [if_neg hidx] at hl
      exact ih _ l hl

theorem skip_crafting_go (items : List (Int × Str)) :
    ∀ (i : Nat) (st : CraftState),
      ∀ l ∈ (generate_crafting_binds_go i items st).1, SkipLine l := by
  induction items with
  | nil => intro i st l hl; simp [generate_crafting_binds_go] at hl
  | cons p rest ih =>
    intro i st l hl
    obtain ⟨itemId, itemName⟩ := p
    rw [generate_crafting_binds_go] at hl
    by_cases hbr : i * 2 ≥ numKeyCombos
    · rw [if_pos hbr] at hl
      simp at hl
    · rw [if_neg hbr] at hl
      simp only [List.mem_cons] at hl
      rcases hl with rfl | rfl | rfl | rfl | hl
      · exact skip_hash_space (by decide) (by decide) (by decide)
      · exact skip_format_bind _ _
      · exact skip_format_bind _ _
      · exact skip_empty
      · exact ih _ _ l hl

theorem skip_generate_crafting_binds (items : List (Int × Str)) (st : CraftState) :
    ∀ l ∈ (generate_crafting_binds items st).1, SkipLine l := by
  intro l hl
  rw [generate_crafting_binds] at hl
  by_cases hfill : items.length * 2 < CRAFTING_BINDS_END - CRAFTING_BINDS_START + 1
  · rw [if_pos hfill] at hl
    simp only [List.mem_append, List.mem_cons] at hl
    rcases hl with hl | rfl | hl
    · exact skip_crafting_go items 0 st l hl
    · exact skip_hash_space (by decide) (by decide) (by decide)
    · rcases hl with hl | rfl | hl
      · exact skip_reservedFiller _ _ l hl
      · exact skip_empty
      · simp at hl
  · rw [if_neg hfill] at hl
    exact skip_crafting_go items 0 st l hl

theorem skip_api_go (cmds : List (Str × Str)) :
    ∀ (i : Nat) (used : List Nat),
      ∀ l ∈ (generate_api_binds_go i cmds used).1, SkipLine l := by
  induction cmds with
  | nil => intro i used l hl; simp [generate_api_binds_go] at hl
  | cons p rest ih =>
    intro i used l hl
    obtain ⟨name, command⟩ := p
    rw [generate_api_binds_go] at hl
    by_cases hbr : API_BINDS_START + i ≥ numKeyCombos
    · rw [if_pos hbr] at hl
      simp at hl
    · rw [if_neg hbr] at hl
      simp only [List.mem_cons] at hl
      rcases hl with rfl | rfl | rfl | hl
      · exact skip_hash_space (by decide) (by decide) (by decide)
      · exact skip_format_bind _ _
      · exact skip_empty
      · exact ih _ _ l hl

theorem skip_generate_api_binds (used : List Nat) :
    ∀ l ∈ (generate_api_binds used).1, SkipLine l := by
  intro l hl
  rw [generate_api_binds] at hl
  by_cases hfill : api_commands.length < API_BINDS_END - API_BINDS_START + 1
  · rw [if_pos hfill] at hl
    simp only [List.mem_append, List.mem_cons] at hl
    rcases hl with hl | rfl | hl
    · exact skip_api_go api_commands 0 used l hl
    · exact skip_hash_space (by decide) (by decide) (by decide)
    · rcases hl with hl | rfl | hl
      · exact skip_reservedFiller _ _ l hl
      · exact skip_empty
      · simp at hl
  · rw [if_neg hfill] at hl
    exact skip_api_go api_commands 0 used l hl

theorem skip_generate_chat_binds (used : List Nat) :
    ∀ l ∈ (generate_chat_binds used).1, SkipLine l := by
  intro l hl
  rw [generate_chat_binds] at hl
  simp only [List.mem_cons] at hl
  rcases hl with rfl | hl
  · exact skip_hash_space (by decide) (by decide) (by decide)
  · rcases List.mem_append.mp hl with hl | hl
    · exact skip_reservedFiller _ _ l hl
    · rw [List.mem_singleton] at hl
      subst hl
      exact skip_empty

theorem skip_dynFreeSlotLines (vals : List Nat) (idxs : List Nat) :
    ∀ l ∈ dynFreeSlotLines vals idxs, SkipLine l := by
  induction idxs with
  | nil => intro l hl; simp [dynFreeSlotLines] at hl
  | cons idx rest ih =>
    intro l hl
    rw [dynFreeSlotLines] at hl
    by_cases hmem : idx ∈ vals
    · rw [if_pos hmem] at hl
      exact ih l hl
    · rw [if_neg hmem] at hl
      simp only [List.mem_cons] at hl
      rcases hl with rfl | rfl | hl
      · exact skip_reserved_comment idx
      · exact skip_format_bind _ _
      · exact ih l hl

theorem skip_default_user_binds : ∀ l ∈ default_user_binds, SkipLine l := by
  intro l hl
  fin_cases hl <;> exact skip_head (by decide) (by decide)

/-! ### The loader's reaction to the marker lines -/

theorem loadStep_userStart (ls : LoadState) :
    loadStep ls (lit "#USER-SECTION-START") = ls :=
  loadStep_skip ls (by decide)

theorem loadStep_userEnd (ls : LoadState) :
    loadStep ls (lit "#USER-SECTION-END") = ls :=
  loadStep_skip ls (by decide)

theorem loadStep_raStart (ls : LoadState) :
    loadStep ls (lit "#RUST-ACTIONS-START") = { ls with inRust := true } := by
  unfold loadStep
  rw [if_pos (by decide)]

theorem loadStep_raEnd (ls : LoadState) :
    loadStep ls (lit "#RUST-ACTIONS-END") = { ls with inRust := false } := by
  unfold loadStep
  rw [if_neg (by decide), if_pos (by decide)]

theorem loadStep_chatHeader (ls : LoadState) :
    loadStep ls (lit "# === CHAT/CONNECTION BINDS ===") = { ls with inChat := true } := by
  unfold loadStep
  rw [if_neg (by decide), if_neg (by decide), if_pos (by decide)]

theorem not_mem_natToChars {c : Char} (hc : isDigitCh c = false) (n : Nat) :
    c ∉ natToChars n := by
  intro hmem
  have := natToChars_digits n c hmem
  rw [hc] at this
  exact Bool.false_ne_true this

theorem goodCT_chars {ct : Str} (h : GoodCT ct) :
    quoteCh ∉ ct ∧ '-' ∉ ct ∧ '.' ∉ ct ∧ ':' ∉ ct := by
  rcases h with rfl | rfl | rfl | rfl | rfl <;> decide

theorem natToChars_last (n : Nat) :
    ∃ u d, natToChars n = u ++ [d] ∧ isDigitCh d = true := by
  rw [natToChars]
  by_cases h : n < 10
  · refine ⟨[], digitCh n, by simp [h], ?_⟩
    interval_cases n <;> decide
  · refine ⟨natToChars (n / 10), digitCh (n % 10), by simp [h], ?_⟩
    have h10 : n % 10 < 10 := Nat.mod_lt _ (by omega)
    interval_cases hm : n % 10 <;> decide

/-- First split: cutting the comment at `" - '"` yields exactly the
prefix up to the command type and the rest. -/
theorem split1_eq (ct sv D : Str) (hct : GoodCT ct) (hq_sv : quoteCh ∉ sv)
    (hd_sv : '-' ∉ sv) (hq_D : quoteCh ∉ D) :
    pySplit (lit " - '")
        (lit "# Dynamic: " ++ ct ++ lit " - '" ++ sv ++ lit "' - bind no." ++ D) =
      [lit "# Dynamic: " ++ ct, sv ++ (lit "' - bind no." ++ D)] := by
  have hgood := goodCT_chars hct
  have hL : lit "# Dynamic: " ++ ct ++ lit " - '" ++ sv ++ lit "' - bind no." ++ D =
      (lit "# Dynamic: " ++ ct) ++ lit " - '" ++ (sv ++ (lit "' - bind no." ++ D)) := by
    simp [List.append_assoc]
  rw [hL]
  apply pySplit_unique _ _ _ (by decide)
  intro X Y hXY
  have e1 : ∀ Z W : Str, Z ++ lit " - '" ++ W = (Z ++ lit " - ") ++ quoteCh :: W := by
    intro Z W
    have h : lit " - '" = lit " - " ++ [quoteCh] := by decide
    rw [h]
    simp [List.append_assoc]
  have e2 : sv ++ (lit "' - bind no." ++ D) =
      sv ++ quoteCh :: (lit " - bind no." ++ D) := by
    have h : lit "' - bind no." = quoteCh :: lit " - bind no." := by decide
    rw [h]
    rfl
  rw [e1 X Y, e1 (lit "# Dynamic: " ++ ct) (sv ++ (lit "' - bind no." ++ D)), e2] at hXY
  have hq_P0u : quoteCh ∉ (lit "# Dynamic: " ++ ct) ++ lit " - " := by
    simp only [List.mem_append]
    push_neg
    exact ⟨⟨by decide, hgood.1⟩, by decide⟩
  have hq_tail : quoteCh ∉ lit " - bind no." ++ D := by
    simp only [List.mem_append]
    push_neg
    exact ⟨by decide, hq_D⟩
  have hcnt := congrArg (List.count quoteCh) hXY
  simp only [List.count_append, List.count_cons_self] at hcnt
  have z1 : List.count quoteCh (lit " - ") = 0 := by decide
  have z2 : List.count quoteCh (lit "# Dynamic: ") = 0 := by decide
  have z3 : List.count quoteCh ct = 0 := List.count_eq_zero.mpr hgood.1
  have c2 : List.count quoteCh sv = 0 := List.count_eq_zero.mpr hq_sv
  have z5 : List.count quoteCh (lit " - bind no.") = 0 := by decide
  have z6 : List.count quoteCh D = 0 := List.count_eq_zero.mpr hq_D
  rw [z1, z2, z3, c2, z5, z6] at hcnt
  by_cases hqX : quoteCh ∈ X ++ lit " - "
  · exfalso
    have hqX' : quoteCh ∈ X := by
      rcases List.mem_append.mp hqX with h | h
      · exact h
      · exact absurd h (by decide)
    have hcX : 0 < List.count quoteCh X := List.count_pos_iff.mpr hqX'
    have hY : quoteCh ∉ Y := by
      have : List.count quoteCh Y = 0 := by omega
      exact List.count_eq_zero.mp this
    have h3 : (X ++ lit " - ") ++ quoteCh :: Y =
        (((lit "# Dynamic: " ++ ct) ++ lit " - ") ++ quoteCh :: sv) ++
          quoteCh :: (lit " - bind no." ++ D) := by
      rw [hXY]
      simp [List.append_assoc]
    have hsplit := append_cons_inj_last hY hq_tail h3
    have hrev := congrArg List.reverse hsplit.1
    simp only [List.reverse_append, List.reverse_cons] at hrev
    have hrevm : (lit " - ").reverse = ' ' :: '-' :: [' '] := by decide
    rw [hrevm] at hrev
    rcases hsvr : sv.reverse with _ | ⟨c, t⟩
    · rw [hsvr] at hrev
      simp only [List.nil_append] at hrev
      injection hrev with h1 _
      exact absurd h1 (by decide)
    · rw [hsvr] at hrev
      simp only [List.cons_append] at hrev
      injection hrev with h1 hrev
      cases t with
      | nil =>
        simp only [List.nil_append] at hrev
        injection hrev with h2 _
        exact absurd h2 (by decide)
      | cons c2 t2 =>
        simp only [List.cons_append] at hrev
        injection hrev with h2 _
        refine hd_sv ?_
        have : c2 ∈ sv.reverse := by
          rw [hsvr]
          exact List.mem_cons_of_mem _ (List.mem_cons_self _ _)
        rw [← h2] at this
        exact List.mem_reverse.mp this
  · have hsplit := append_cons_inj hqX hq_P0u hXY
    refine ⟨List.append_cancel_right hsplit.1, ?_⟩
    rw [hsplit.2, e2]

/-- Second split: cutting the remainder at `"' - bind no."` yields the
string value and the digits. -/
theorem split2_eq (sv D : Str) (hq_sv : quoteCh ∉ sv) (hq_D : quoteCh ∉ D) :
    pySplit (lit "' - bind no.") (sv ++ lit "' - bind no." ++ D) = [sv, D] := by
  apply pySplit_unique _ _ _ (by decide)
  intro X Y hXY
  have e1 : ∀ Z W : Str, Z ++ lit "' - bind no." ++ W =
      Z ++ quoteCh :: (lit " - bind no." ++ W) := by
    intro Z W
    have h : lit "' - bind no." = quoteCh :: lit " - bind no." := by decide
    rw [h]
    simp
  rw [e1 X Y, e1 sv D] at hXY
  have hq_vY : quoteCh ∉ X := by
    have hcnt := congrArg (List.count quoteCh) hXY
    simp only [List.count_append, List.count_cons_self] at hcnt
    have c2 : List.count quoteCh sv = 0 := List.count_eq_zero.mpr hq_sv
    have z5 : List.count quoteCh (lit " - bind no.") = 0 := by decide
    have z6 : List.count quoteCh D = 0 := List.count_eq_zero.mpr hq_D
    rw [c2, z5, z6] at hcnt
    refine List.count_eq_zero.mp ?_
    omega
  have hsplit := append_cons_inj hq_vY hq_sv hXY
  refine ⟨hsplit.1, List.append_cancel_left hsplit.2⟩

/-- Third split: cutting the whole line at `"bind no."` isolates the
digits. -/
theorem split3_eq (A D : Str) (hA : '.' ∉ A) (hD : '.' ∉ D) :
    pySplit (lit "bind no.") (A ++ lit "bind no." ++ D) = [A, D] := by
  apply pySplit_unique _ _ _ (by decide)
  intro X Y hXY
  have e1 : ∀ Z W : Str, Z ++ lit "bind no." ++ W =
      (Z ++ lit "bind no") ++ '.' :: W := by
    intro Z W
    have h : lit "bind no." = lit "bind no" ++ ['.'] := by decide
    rw [h]
    simp [List.append_assoc]
  rw [e1 X Y, e1 A D] at hXY
  have hdA : '.' ∉ A ++ lit "bind no" := by
    simp only [List.mem_append]
    push_neg
    exact ⟨hA, by decide⟩
  have hdX : '.' ∉ X ++ lit "bind no" := by
    have hcnt := congrArg (List.count '.') hXY
    simp only [List.count_append, List.count_cons_self] at hcnt
    have z1 : List.count '.' (lit "bind no") = 0 := by decide
    have c1 : List.count '.' A = 0 := List.count_eq_zero.mpr hA
    have c2 : List.count '.' D = 0 := List.count_eq_zero.mpr hD
    rw [z1, c1, c2] at hcnt
    have hx : List.count '.' X = 0 := by omega
    simp only [List.mem_append]
    push_neg
    exact ⟨List.count_eq_zero.mp hx, by decide⟩
  have hsplit := append_cons_inj hdX hdA hXY
  refine ⟨List.append_cancel_right hsplit.1, hsplit.2⟩

theorem leadsWith_append_self (p t : Str) : leadsWith p (p ++ t) = true :=
  (leadsWith_iff p (p ++ t)).mpr ⟨t, rfl⟩

theorem noOcc_of_short (sep s : Str) (h : s.length < sep.length) : ¬ Occurs sep s := by
  rintro ⟨a, b, rfl⟩
  simp only [List.length_append] at h
  omega

/-- A separator ending in a character absent from `a ++ u` first
occurs in `a ++ (u ++ [q]) ++ b` at the visible position. -/
theorem firstOcc_anchor {q : Char} (u a b : Str) (hq : q ∉ a ++ u) :
    FirstOcc (u ++ [q]) a b := by
  intro x y hxy
  have hxy' : (x ++ u) ++ q :: y = (a ++ u) ++ q :: b := by
    simpa [List.append_assoc] using hxy
  by_cases hqx : q ∈ x ++ u
  · by_contra hlt
    push_neg at hlt
    have hlen : x.length + u.length ≤ (a ++ u).length := by
      simp only [List.length_append]
      omega
    have htake : ((a ++ u) ++ q :: b).take (x.length + u.length) =
        (a ++ u).take (x.length + u.length) :=
      List.take_append_of_le_length hlen
    have hxu : x ++ u = (a ++ u).take (x.length + u.length) := by
      rw [← htake, ← hxy']
      rw [List.take_left']
      simp [List.length_append]
    have : q ∈ a ++ u := List.take_subset _ _ (hxu ▸ hqx)
    exact hq this
  · have := append_cons_inj hqx hq hxy'
    have hx : x = a := List.append_cancel_right this.1
    rw [hx]

theorem pySplitGo_first (s0 : Char) (sr : Str) (a b : Str)
    (h : FirstOcc (s0 :: sr) a b) :
    ∀ acc, pySplitGo s0 sr (a ++ (s0 :: sr) ++ b) acc =
      (acc.reverse ++ a) :: pySplitGo s0 sr b [] := by
  induction a with
  | nil =>
    intro acc
    rw [List.nil_append, List.cons_append, pySplitGo]
    have hlw : leadsWith (s0 :: sr) (s0 :: (sr ++ b)) = true :=
      (leadsWith_iff _ _).mpr ⟨b, by simp⟩
    rw [hlw]
    simp only [if_true]
    rw [List.drop_left]
    simp
  | cons c a' ih =>
    intro acc
    rw [List.cons_append, List.cons_append, pySplitGo]
    have hlw : leadsWith (s0 :: sr) (c :: (a' ++ (s0 :: sr) ++ b)) = false := by
      rcases Bool.eq_false_or_eq_true (leadsWith (s0 :: sr) (c :: (a' ++ (s0 :: sr) ++ b)))
        with ht | hf
      · obtain ⟨t, ht'⟩ := (leadsWith_iff _ _).mp ht
        have := h [] t (by simpa using ht'.symm)
        simp at this
      · exact hf
    rw [hlw]
    simp only [Bool.false_eq_true, if_false]
    have h' : FirstOcc (s0 :: sr) a' b := by
      intro x y hxy
      have := h (c :: x) y (by simp [hxy])
      simp only [List.length_cons] at this
      omega
    rw [ih h' (c :: acc)]
    simp

/-- Splitting cuts at the first occurrence and recurses on the rest. -/
theorem pySplit_first (sep a b : Str) (hne : sep ≠ []) (h : FirstOcc sep a b) :
    pySplit sep (a ++ sep ++ b) = a :: pySplit sep b := by
  match sep, hne with
  | s0 :: sr, _ =>
    have := pySplitGo_first s0 sr a b h []
    simpa [pySplit] using this

/-- Splitting off the fixed `# Dynamic: ` header of a comment line
whose remainder is colon-free. -/
theorem pySplit_header (ct : Str) (hcolon : ':' ∉ ct) :
    pySplit (lit "# Dynamic: ") (lit "# Dynamic: " ++ ct) = [[], ct] := by
  have h0 : lit "# Dynamic: " ++ ct = [] ++ lit "# Dynamic: " ++ ct := rfl
  rw [h0]
  apply pySplit_unique _ _ _ (by decide)
  intro X Y hXY
  have e1 : ∀ Z W : Str, Z ++ lit "# Dynamic: " ++ W =
      (Z ++ lit "# Dynamic") ++ ':' :: ([' '] ++ W) := by
    intro Z W
    have h : lit "# Dynamic: " = lit "# Dynamic" ++ ':' :: [' '] := by decide
    rw [h]
    simp [List.append_assoc]
  rw [e1 X Y, e1 [] ct] at hXY
  have hcX : ':' ∉ X ++ lit "# Dynamic" := by
    have hcnt := congrArg (List.count ':') hXY
    simp only [List.count_append, List.count_cons_self] at hcnt
    have z1 : List.count ':' (lit "# Dynamic") = 0 := by decide
    have z2 : List.count ':' ([' '] : Str) = 0 := by decide
    have z3 : List.count ':' ct = 0 := List.count_eq_zero.mpr hcolon
    rw [z1, z2, z3] at hcnt
    have hx : List.count ':' X = 0 := by
      have z4 : List.count ':' ([] : Str) = 0 := by decide
      rw [z4] at hcnt
      omega
    simp only [List.mem_append]
    push_neg
    exact ⟨List.count_eq_zero.mp hx, by decide⟩
  have hcE : ':' ∉ ([] : Str) ++ lit "# Dynamic" := by decide
  have hsp := append_cons_inj hcX hcE hXY
  exact ⟨List.append_cancel_right hsp.1, List.append_cancel_left hsp.2⟩

theorem pyStrip_dynComment (ct sv : Str) (idx : Nat) :
    pyStrip (dynComment ct sv idx) = dynComment ct sv idx := by
  obtain ⟨u, d, hud, hd⟩ := natToChars_last idx
  have hshape : dynComment ct sv idx =
      '#' :: ((lit " Dynamic: " ++ ct ++ lit " - '" ++ sv ++ lit "' - bind no." ++ u) ++ [d]) := by
    rw [dynComment, hud]
    simp only [show lit "# Dynamic: " = '#' :: lit " Dynamic: " from rfl, List.cons_append,
      List.append_assoc]
  rw [hshape]
  exact pyStrip_cons_last (by decide) (digit_not_ws hd)

/-- The loader's parser inverts the writer's comment format on
well-formed command types and string values. -/
theorem parseDynLine_dynComment (ct sv : Str) (idx : Nat)
    (hct : GoodCT ct) (hsv : GoodSV sv) :
    parseDynLine (dynComment ct sv idx) = some (ct, sv, idx) := by
  have hgood := goodCT_chars hct
  have hq_sv : quoteCh ∉ sv := fun h => (hsv.1 _ h).1 rfl
  have hd_sv : '-' ∉ sv := fun h => (hsv.1 _ h).2.1 rfl
  have hdot_sv : '.' ∉ sv := fun h => (hsv.1 _ h).2.2.1 rfl
  have hqD : quoteCh ∉ natToChars idx := not_mem_natToChars (by decide) idx
  have hdotD : '.' ∉ natToChars idx := not_mem_natToChars (by decide) idx
  have h1 : pySplit (lit " - '") (dynComment ct sv idx) =
      [lit "# Dynamic: " ++ ct, sv ++ (lit "' - bind no." ++ natToChars idx)] := by
    rw [dynComment]
    exact split1_eq ct sv (natToChars idx) hct hq_sv hd_sv hqD
  have h2 : pySplit (lit "' - bind no.") (sv ++ (lit "' - bind no." ++ natToChars idx)) =
      [sv, natToChars idx] := by
    rw [← List.append_assoc]
    exact split2_eq sv (natToChars idx) hq_sv hqD
  have hdotA3 : '.' ∉ lit "# Dynamic: " ++ ct ++ lit " - '" ++ sv ++ lit "' - " := by
    simp only [List.mem_append]
    push_neg
    exact ⟨⟨⟨⟨by decide, hgood.2.2.1⟩, by decide⟩, hdot_sv⟩, by decide⟩
  have h3 : pySplit (lit "bind no.") (dynComment ct sv idx) =
      [lit "# Dynamic: " ++ ct ++ lit " - '" ++ sv ++ lit "' - ", natToChars idx] := by
    have hA3 : dynComment ct sv idx =
        (lit "# Dynamic: " ++ ct ++ lit " - '" ++ sv ++ lit "' - ") ++ lit "bind no." ++
          natToChars idx := by
      rw [dynComment]
      have h : lit "' - bind no." = lit "' - " ++ lit "bind no." := by decide
      rw [h]
      simp [List.append_assoc]
    rw [hA3]
    exact split3_eq _ _ hdotA3 hdotD
  have hcmd : pyStrip (pyReplaceEmpty (lit "# Dynamic: ") (lit "# Dynamic: " ++ ct)) = ct := by
    rw [pyReplaceEmpty, pySplit_header ct hgood.2.2.2]
    simp only [List.flatten, List.nil_append, List.append_nil]
    rcases hct with rfl | rfl | rfl | rfl | rfl <;> decide
  simp only [parseDynLine, h1, h3, List.getD_cons_zero, List.getD_cons_succ,
    List.length_cons, List.length_nil, List.get?_cons_succ, List.get?_cons_zero, h2,
    pyInt_natToChars, hcmd, hsv.2, if_pos (by omega : 0 + 1 + 1 ≥ 2)]

/-- On a written dynamic comment line with both section flags set, the
loader branches exactly on the outcome of `parseDynLine`. -/
theorem loadStep_dynComment_parse (ls : LoadState) (hR : ls.inRust = true)
    (hC : ls.inChat = true) (ct sv : Str) (idx : Nat) :
    loadStep ls (dynComment ct sv idx) =
      match parseDynLine (dynComment ct sv idx) with
      | none => ls
      | some (c, s, i) =>
        { ls with
          binds := assocUpdate ls.binds (c ++ ':' :: s) i,
          order := ls.order ++ [i],
          used := setAdd ls.used i,
          next := if i ≥ ls.next then i + 1 else ls.next } := by
  have hshape : dynComment ct sv idx =
      '#' :: ' ' :: 'D' ::
        (lit "ynamic: " ++ (ct ++ lit " - '" ++ sv ++ lit "' - bind no." ++ natToChars idx)) := by
    rw [dynComment]
    simp only [show lit "# Dynamic: " = '#' :: ' ' :: 'D' :: lit "ynamic: " from rfl,
      List.cons_append, List.append_assoc]
  have hne1 : dynComment ct sv idx ≠ lit "#RUST-ACTIONS-START" := by
    rw [hshape]
    have hm : lit "#RUST-ACTIONS-START" = '#' :: 'R' :: 'U' :: lit "ST-ACTIONS-START" := by
      decide
    rw [hm]
    intro h
    injection h with _ h
    injection h with h2 _
    exact absurd h2 (by decide)
  have hne2 : dynComment ct sv idx ≠ lit "#RUST-ACTIONS-END" := by
    rw [hshape]
    have hm : lit "#RUST-ACTIONS-END" = '#' :: 'R' :: 'U' :: lit "ST-ACTIONS-END" := by
      decide
    rw [hm]
    intro h
    injection h with _ h
    injection h with h2 _
    exact absurd h2 (by decide)
  have hne3 : dynComment ct sv idx ≠ lit "# === CHAT/CONNECTION BINDS ===" := by
    rw [hshape]
    have hm : lit "# === CHAT/CONNECTION BINDS ===" =
        '#' :: ' ' :: '=' :: lit "== CHAT/CONNECTION BINDS ===" := by decide
    rw [hm]
    intro h
    injection h with _ h
    injection h with _ h
    injection h with h3 _
    exact absurd h3 (by decide)
  have hlw : leadsWith (lit "# Dynamic:") (dynComment ct sv idx) = true := by
    have h : dynComment ct sv idx =
        lit "# Dynamic:" ++
          (' ' :: (ct ++ lit " - '" ++ sv ++ lit "' - bind no." ++ natToChars idx)) := by
      rw [dynComment]
      simp only [show lit "# Dynamic: " = lit "# Dynamic:" ++ [' '] from rfl,
        List.append_assoc, List.singleton_append, List.cons_append, List.nil_append]
    rw [h]
    exact leadsWith_append_self _ _
  unfold loadStep
  rw [pyStrip_dynComment, if_neg hne1, if_neg hne2, if_neg hne3,
    if_neg (by simp [hR, hC]), hlw, if_pos rfl]

/-- The loader applies the parsed triple of a well-formed dynamic
comment line when both section flags are set. -/
theorem loadStep_dynComment (ls : LoadState) (hR : ls.inRust = true) (hC : ls.inChat = true)
    (ct sv : Str) (idx : Nat) (hct : GoodCT ct) (hsv : GoodSV sv) :
    loadStep ls (dynComment ct sv idx) =
      { ls with
        binds := assocUpdate ls.binds (ct ++ ':' :: sv) idx,
        order := ls.order ++ [idx],
        used := setAdd ls.used idx,
        next := if idx ≥ ls.next then idx + 1 else ls.next } := by
  rw [loadStep_dynComment_parse ls hR hC ct sv idx,
    parseDynLine_dynComment ct sv idx hct hsv]

theorem loadStep_empty (ls : LoadState) : loadStep ls emptyLine = ls :=
  loadStep_skip ls skip_empty

theorem colonSplit1_append (ct sv : Str) (h : ':' ∉ ct) :
    colonSplit1 (ct ++ ':' :: sv) = (ct, sv) := by
  induction ct with
  | nil => simp [colonSplit1]
  | cons c r ih =>
    have hc : c ≠ ':' := fun hc => h (hc ▸ List.mem_cons_self c r)
    have hr : ':' ∉ r := fun hr => h (List.mem_cons_of_mem _ hr)
    simp [colonSplit1, hc, ih hr]

theorem command_templates_lookup {ct : Str} (hct : GoodCT ct) :
    ∃ tmpl, assocLookup command_templates ct = some tmpl := by
  rcases hct with rfl | rfl | rfl | rfl | rfl
  · exact ⟨lit "chat.say", by decide⟩
  · exact ⟨lit "chat.teamsay", by decide⟩
  · exact ⟨lit "disconnect;client.connect", by decide⟩
  · exact ⟨lit "respawn_sleepingbag", by decide⟩
  · exact ⟨lit "inventory.give", by decide⟩

theorem dynEntryLines_good (ct sv : Str) (idx : Nat) (hct : GoodCT ct) :
    ∃ cmd, dynEntryLines (ct ++ ':' :: sv, idx) =
      [dynComment ct sv idx, format_bind_command (dynKeyComboAt idx) cmd, emptyLine] := by
  obtain ⟨tmpl, htmpl⟩ := command_templates_lookup hct
  refine ⟨if ct = lit "chat_say" ∨ ct = lit "chat_teamsay" then
      tmpl ++ ' ' :: '"' :: (sv ++ ['"'])
    else if ct = lit "inventory_give" then sv else tmpl ++ ' ' :: sv, ?_⟩
  simp only [dynEntryLines, colonSplit1_append ct sv (goodCT_chars hct).2.2.2, htmpl]

theorem foldl_loadEntryStep_flags (dynBinds : List (Str × Nat)) :
    ∀ ls : LoadState, (dynBinds.foldl loadEntryStep ls).inRust = ls.inRust ∧
      (dynBinds.foldl loadEntryStep ls).inChat = ls.inChat := by
  induction dynBinds with
  | nil => intro ls; exact ⟨rfl, rfl⟩
  | cons p rest ih =>
    intro ls
    rw [List.foldl_cons]
    exact ih (loadEntryStep ls p)

/-- Folding the loader over the lines of well-formed entries applies
exactly the per-entry state updates, in order. -/
theorem foldl_entries (dynBinds : List (Str × Nat))
    (hwf : ∀ p ∈ dynBinds, GoodEntry p) :
    ∀ ls : LoadState, ls.inRust = true → ls.inChat = true →
      (dynBinds.flatMap dynEntryLines).foldl loadStep ls =
        dynBinds.foldl loadEntryStep ls := by
  induction dynBinds with
  | nil => intro ls _ _; rfl
  | cons p rest ih =>
    intro ls hR hC
    obtain ⟨k, idx⟩ := p
    obtain ⟨ct, sv, hp1, hct, hsv⟩ := hwf (k, idx) (List.mem_cons_self _ _)
    simp only at hp1
    subst hp1
    obtain ⟨cmd, hlines⟩ := dynEntryLines_good ct sv idx hct
    rw [List.flatMap_cons, List.foldl_append, hlines]
    rw [List.foldl_cons, List.foldl_cons, List.foldl_cons, List.foldl_nil]
    rw [loadStep_dynComment ls hR hC ct sv idx hct hsv,
      loadStep_skip _ (skip_format_bind _ _), loadStep_empty, List.foldl_cons]
    exact ih (fun q hq => hwf q (List.mem_cons_of_mem _ hq)) _ hR hC

/-- Folding the loader over the chat/connection section's lines. -/
theorem foldl_dyn_lines (dynBinds : List (Str × Nat)) (used : List Nat)
    (hwf : ∀ p ∈ dynBinds, GoodEntry p) (ls : LoadState)
    (hR : ls.inRust = true) (hC : ls.inChat = true) :
    ((generate_dynamic_chat_binds dynBinds used).1).foldl loadStep ls =
      dynBinds.foldl loadEntryStep ls := by
  rw [generate_dynamic_chat_binds]
  by_cases hnil : dynBinds = []
  · rw [if_pos hnil, hnil]
    exact foldl_loadStep_skip _ (skip_generate_chat_binds used) ls
  · rw [if_neg hnil]
    by_cases hlen : dynBinds.length < CHAT_BINDS_END - CHAT_BINDS_START + 1
    · rw [if_pos hlen]
      simp only [List.foldl_append, List.foldl_cons]
      rw [foldl_entries dynBinds hwf ls hR hC]
      rw [loadStep_skip _ (by decide :
        SkipLine (lit "# Empty reserved binds for future dynamic chat/connection commands"))]
      rw [foldl_loadStep_skip _ (skip_dynFreeSlotLines _ _)]
      simp only [List.foldl_cons, List.foldl_nil, loadStep_empty]
    · rw [if_neg hlen]
      exact foldl_entries dynBinds hwf ls hR hC

/-- Folding the loader over a file with the writer's section layout:
only the chat/connection section `d` is processed with both flags set;
the skippable sections `u`, `c`, `a` leave the state alone. -/
theorem foldl_sections (u c a d : List Str) (ls : LoadState)
    (hu : ∀ l ∈ u, SkipLine l) (hc : ∀ l ∈ c, SkipLine l) (ha : ∀ l ∈ a, SkipLine l) :
    (lit "#USER-SECTION-START" ::
      (u ++
        lit "#USER-SECTION-END" ::
        emptyLine ::
        lit "#RUST-ACTIONS-START" ::
        ((lit "# Rust Actions Programmatically Managed Binds" ::
          lit "# Generated by BindsManager" ::
          emptyLine ::
          lit "# === CRAFTING BINDS ===" ::
          (c ++
            emptyLine ::
            lit "# === API BINDS ===" ::
            (a ++
              emptyLine ::
              lit "# === CHAT/CONNECTION BINDS ===" ::
              (d ++ [emptyLine])))) ++
          lit "#RUST-ACTIONS-END" ::
          [emptyLine]))).foldl loadStep ls =
      { d.foldl loadStep { ls with inRust := true, inChat := true } with
        inRust := false } := by
  simp only [List.foldl_cons, List.foldl_append, List.foldl_nil]
  rw [loadStep_userStart, foldl_loadStep_skip _ hu, loadStep_userEnd, loadStep_empty,
    loadStep_raStart,
    loadStep_skip _ (by decide :
      SkipLine (lit "# Rust Actions Programmatically Managed Binds")),
    loadStep_skip _ (by decide : SkipLine (lit "# Generated by BindsManager")),
    loadStep_empty,
    loadStep_skip _ (by decide : SkipLine (lit "# === CRAFTING BINDS ===")),
    foldl_loadStep_skip _ hc,
    loadStep_empty,
    loadStep_skip _ (by decide : SkipLine (lit "# === API BINDS ===")),
    foldl_loadStep_skip _ ha,
    loadStep_empty,
    loadStep_chatHeader,
    loadStep_empty,
    loadStep_raEnd,
    loadStep_empty]

/-- Loading the file the writer produced reduces to folding the loader
over the chat/connection section with both flags set (every other
written line either flips a flag or is skipped). -/
theorem load_write_lines (user : List Str) (items : List (Int × Str)) (st : CraftState)
    (dynBinds : List (Str × Nat)) (huser : ∀ l ∈ user, SkipLine l) :
    load_dynamic_binds_from_keys_cfg (write_keys_cfg_lines user items dynBinds st).1 =
      finishLoad
        (((generate_dynamic_chat_binds dynBinds
            (generate_api_binds (generate_crafting_binds items st).2.used_binds).2).1).foldl
          loadStep loadInitRust) := by
  have hu : ∀ l ∈ (if user = [] then default_user_binds else user), SkipLine l := by
    by_cases h : user = []
    · rw [if_pos h]; exact skip_default_user_binds
    · rw [if_neg h]; exact huser
  simp only [write_keys_cfg_lines, load_dynamic_binds_from_keys_cfg]
  rw [foldl_sections _ _ _ _ _ hu (skip_generate_crafting_binds items st)
    (skip_generate_api_binds _)]
  rfl

theorem foldl_loadEntryStep_binds :
    ∀ (dynBinds : List (Str × Nat)) (ls : LoadState),
      (∀ p ∈ dynBinds, p.1 ∉ ls.binds.map Prod.fst) →
      (dynBinds.map Prod.fst).Nodup →
      (dynBinds.foldl loadEntryStep ls).binds = ls.binds ++ dynBinds := by
  intro dynBinds
  induction dynBinds with
  | nil => intro ls _ _; simp
  | cons p rest ih =>
    intro ls hfresh hnodup
    rw [List.foldl_cons]
    have hnd : p.1 ∉ rest.map Prod.fst ∧ (rest.map Prod.fst).Nodup :=
      List.nodup_cons.mp (by simpa using hnodup)
    have h1 : (loadEntryStep ls p).binds = ls.binds ++ [p] := by
      show assocUpdate ls.binds p.1 p.2 = ls.binds ++ [p]
      rw [assocUpdate_append (fun q hq heq =>
        hfresh p (List.mem_cons_self _ _) (by
          rw [← heq]
          exact List.mem_map_of_mem Prod.fst hq))]
    have hfresh' : ∀ q ∈ rest, q.1 ∉ (loadEntryStep ls p).binds.map Prod.fst := by
      intro q hq
      rw [h1]
      simp only [List.map_append, List.mem_append]
      push_neg
      refine ⟨hfresh q (List.mem_cons_of_mem _ hq), ?_⟩
      simp only [List.map_cons, List.map_nil, List.mem_singleton]
      intro heq
      exact hnd.1 (heq ▸ List.mem_map_of_mem Prod.fst hq)
    rw [ih (loadEntryStep ls p) hfresh' hnd.2, h1]
    simp

/-- C1 (amended): writing the config and loading it back recovers
exactly the dynamic-bind entry map, provided every entry key splits
into a known command type and a string value free of the comment's
delimiter characters, the keys are distinct (an invariant of every
reachable cache state), and the user section contains only loader-inert
lines.  The unamended claim — for *every* reachable state — fails; see
the counterexample. -/
theorem C1_write_read_roundtrip (user : List Str) (items : List (Int × Str))
    (st : CraftState) (dynBinds : List (Str × Nat))
    (huser : ∀ l ∈ user, SkipLine l)
    (hwf : ∀ p ∈ dynBinds, GoodEntry p)
    (hnodup : (dynBinds.map Prod.fst).Nodup) :
    (load_dynamic_binds_from_keys_cfg
        (write_keys_cfg_lines user items dynBinds st).1).binds = dynBinds := by
  rw [load_write_lines user items st dynBinds huser]
  rw [show ∀ M : LoadState, (finishLoad M).binds = M.binds from fun M => rfl]
  rw [foldl_dyn_lines dynBinds _ hwf loadInitRust rfl rfl]
  rw [foldl_loadEntryStep_binds dynBinds loadInitRust (by simp [loadInitRust]) hnodup]
  simp [loadInitRust]

theorem C1_write_read_roundtrip_witness :
    (load_dynamic_binds_from_keys_cfg
        (write_keys_cfg_lines [] [] [(lit "chat_say:hello", 4000)]
          { bind_mapping := [], used_binds := [] }).1).binds =
      [(lit "chat_say:hello", 4000)] :=
  C1_write_read_roundtrip [] [] { bind_mapping := [], used_binds := [] }
    [(lit "chat_say:hello", 4000)]
    (by intro l hl; simp at hl)
    (by
      intro p hp
      rw [List.mem_singleton] at hp
      subst hp
      exact ⟨lit "chat_say", lit "hello", by decide, Or.inl rfl, by decide⟩)
    (by decide)

/-! ### A reachable state the round trip corrupts -/

theorem natToChars_4000 : natToChars 4000 = lit "4000" := by
  rw [natToChars, if_neg (by norm_num)]
  rw [show (4000 : Nat) / 10 = 400 from by norm_num,
    show (4000 : Nat) % 10 = 0 from by norm_num]
  rw [natToChars, if_neg (by norm_num)]
  rw [show (400 : Nat) / 10 = 40 from by norm_num,
    show (400 : Nat) % 10 = 0 from by norm_num]
  rw [natToChars, if_neg (by norm_num)]
  rw [show (40 : Nat) / 10 = 4 from by norm_num,
    show (40 : Nat) % 10 = 0 from by norm_num]
  rw [natToChars, if_pos (by norm_num)]
  decide

theorem uniqueOcc_bad2 :
    UniqueOcc (lit " - '") (lit "x") (lit "y' - bind no.4000") := by
  intro X Y hXY
  have e1 : ∀ Z W : Str, Z ++ lit " - '" ++ W = (Z ++ lit " - ") ++ quoteCh :: W := by
    intro Z W
    have h : lit " - '" = lit " - " ++ [quoteCh] := by decide
    rw [h]
    simp [List.append_assoc]
  rw [e1 X Y, e1 (lit "x") (lit "y' - bind no.4000")] at hXY
  by_cases hqx : quoteCh ∈ X ++ lit " - "
  · exfalso
    have hqX : quoteCh ∈ X := by
      rcases List.mem_append.mp hqx with h | h
      · exact h
      · exact absurd h (by decide)
    have hY : quoteCh ∉ Y := by
      have hcnt := congrArg (List.count quoteCh) hXY
      simp only [List.count_append, List.count_cons_self] at hcnt
      have z1 : List.count quoteCh (lit " - ") = 0 := by decide
      have z2 : List.count quoteCh (lit "x") = 0 := by decide
      have z3 : List.count quoteCh (lit "y' - bind no.4000") = 1 := by decide
      rw [z1, z2, z3] at hcnt
      have hx : 0 < List.count quoteCh X := List.count_pos_iff.mpr hqX
      have : List.count quoteCh Y = 0 := by omega
      exact List.count_eq_zero.mp this
    have hre : (lit "x" ++ lit " - ") ++ quoteCh :: lit "y' - bind no.4000" =
        ((lit "x" ++ lit " - ") ++ quoteCh :: lit "y") ++
          quoteCh :: lit " - bind no.4000" := by decide
    rw [hre] at hXY
    have hsp := append_cons_inj_last hY (by decide) hXY
    have hrev := congrArg List.reverse hsp.1
    simp only [List.reverse_append, List.reverse_cons] at hrev
    rw [show (lit " - ").reverse = ' ' :: '-' :: [' '] from by decide] at hrev
    rw [show (lit "y").reverse = ['y'] from by decide] at hrev
    simp only [List.cons_append, List.singleton_append] at hrev
    injection hrev with h1 _
    exact absurd h1 (by decide)
  · have hsp := append_cons_inj hqx (by decide) hXY
    refine ⟨List.append_cancel_right hsp.1, hsp.2⟩

theorem split1_bad :
    pySplit (lit " - '") (dynComment (lit "chat_say") (lit "x - 'y") 4000) =
      [lit "# Dynamic: chat_say", lit "x", lit "y' - bind no.4000"] := by
  have hdc : dynComment (lit "chat_say") (lit "x - 'y") 4000 =
      lit "# Dynamic: chat_say" ++ lit " - '" ++
        (lit "x" ++ lit " - '" ++ lit "y' - bind no.4000") := by
    rw [dynComment, natToChars_4000]
    decide
  have hfirst : FirstOcc (lit " - '") (lit "# Dynamic: chat_say")
      (lit "x" ++ lit " - '" ++ lit "y' - bind no.4000") := by
    rw [show lit " - '" = lit " - " ++ [quoteCh] from by decide]
    exact firstOcc_anchor _ _ _ (by decide)
  rw [hdc, pySplit_first _ _ _ (by decide) hfirst,
    pySplit_unique _ _ _ (by decide) uniqueOcc_bad2]

theorem split3_bad :
    pySplit (lit "bind no.") (dynComment (lit "chat_say") (lit "x - 'y") 4000) =
      [lit "# Dynamic: chat_say - 'x - 'y' - ", lit "4000"] := by
  have hdc : dynComment (lit "chat_say") (lit "x - 'y") 4000 =
      lit "# Dynamic: chat_say - 'x - 'y' - " ++ lit "bind no." ++ lit "4000" := by
    rw [dynComment, natToChars_4000]
    decide
  rw [hdc]
  exact split3_eq _ _ (by decide) (by decide)

/-- The loader misparses the comment written for the string value
`x - 'y`: the recovered string value is just `x`. -/
theorem parseDynLine_bad :
    parseDynLine (dynComment (lit "chat_say") (lit "x - 'y") 4000) =
      some (lit "chat_say", lit "x", 4000) := by
  have h2 : pySplit (lit "' - bind no.") (lit "x") = [lit "x"] :=
    pySplit_noOcc _ _ (by decide) (noOcc_of_short _ _ (by decide))
  have hH : pySplit (lit "# Dynamic: ") (lit "# Dynamic: chat_say") = [[], lit "chat_say"] := by
    rw [show lit "# Dynamic: chat_say" = lit "# Dynamic: " ++ lit "chat_say" from by decide]
    exact pySplit_header _ (by decide)
  have hcmd2 : pyStrip (pyReplaceEmpty (lit "# Dynamic: ") (lit "# Dynamic: chat_say")) =
      lit "chat_say" := by
    rw [pyReplaceEmpty, hH]
    decide
  have hint : pyInt (lit "4000") = some 4000 := by decide
  simp only [parseDynLine, split1_bad, split3_bad, List.getD_cons_zero, List.getD_cons_succ,
    List.length_cons, List.length_nil, List.get?_cons_succ, List.get?_cons_zero, h2,
    hint, hcmd2, if_pos (by omega : 0 + 1 + 1 + 1 ≥ 2)]
  rw [show pyStrip (lit "x") = lit "x" from by decide]

/-- C1 is false as stated: from the empty cache, one
`get_or_create_dynamic_bind("chat_say", "x - 'y")` call reaches a state
whose only entry has a string value containing the comment delimiter
` - '`; writing and re-reading the config yields the key `chat_say:x`
instead, so the entry set is not reproduced. -/
theorem C1_write_read_roundtrip_cex :
    get_or_create_dynamic_bind initDynState (lit "chat_say") (lit "x - 'y") =
      some (4000,
        { dynamic_binds := [(lit "chat_say:x - 'y", 4000)],
          dynamic_bind_order := [4000], next_dynamic_bind := 4001,
          used_binds := [4000] }) ∧
    (load_dynamic_binds_from_keys_cfg
        (write_keys_cfg_lines [] [] [(lit "chat_say:x - 'y", 4000)]
          { bind_mapping := [], used_binds := [] }).1).binds ≠
      [(lit "chat_say:x - 'y", 4000)] := by
  refine ⟨by decide, ?_⟩
  rw [load_write_lines [] [] _ _ (by intro l hl; simp at hl)]
  rw [show ∀ M : LoadState, (finishLoad M).binds = M.binds from fun M => rfl]
  have hlines : dynEntryLines (lit "chat_say:x - 'y", 4000) =
      [dynComment (lit "chat_say") (lit "x - 'y") 4000,
       format_bind_command (dynKeyComboAt 4000)
         (lit "chat.say" ++ ' ' :: '"' :: (lit "x - 'y" ++ ['"'])),
       emptyLine] := by
    simp only [dynEntryLines,
      show colonSplit1 (lit "chat_say:x - 'y") = (lit "chat_say", lit "x - 'y") from by decide,
      show assocLookup command_templates (lit "chat_say") = some (lit "chat.say") from by
        decide,
      eq_self_iff_true, true_or, if_true]
  have hstep1 : loadStep loadInitRust (dynComment (lit "chat_say") (lit "x - 'y") 4000) =
      { binds := [(lit "chat_say:x", 4000)], order := [4000], used := [4000],
        next := 4001, inRust := true, inChat := true } := by
    rw [loadStep_dynComment_parse loadInitRust rfl rfl, parseDynLine_bad]
    decide
  have hA : (dynEntryLines (lit "chat_say:x - 'y", 4000)).foldl loadStep loadInitRust =
      { binds := [(lit "chat_say:x", 4000)], order := [4000], used := [4000],
        next := 4001, inRust := true, inChat := true } := by
    rw [hlines, List.foldl_cons, hstep1, List.foldl_cons,
      loadStep_skip _ (skip_format_bind _ _), List.foldl_cons, loadStep_empty,
      List.foldl_nil]
  have hfold : ((generate_dynamic_chat_binds [(lit "chat_say:x - 'y", 4000)]
        (generate_api_binds (generate_crafting_binds []
          { bind_mapping := [], used_binds := [] }).2.used_binds).2).1).foldl
      loadStep loadInitRust =
      { binds := [(lit "chat_say:x", 4000)], order := [4000], used := [4000],
        next := 4001, inRust := true, inChat := true } := by
    have hpre : (generate_dynamic_chat_binds [(lit "chat_say:x - 'y", 4000)]
        (generate_api_binds (generate_crafting_binds []
          { bind_mapping := [], used_binds := [] }).2.used_binds).2).1 =
        ([(lit "chat_say:x - 'y", 4000)].flatMap dynEntryLines) ++
          lit "# Empty reserved binds for future dynamic chat/connection commands" ::
          (dynFreeSlotLines (List.map Prod.snd [(lit "chat_say:x - 'y", 4000)])
            (List.range' CHAT_BINDS_START (CHAT_BINDS_END + 1 - CHAT_BINDS_START)) ++
            [emptyLine]) := by
      rw [generate_dynamic_chat_binds, if_neg (by simp), if_pos (by decide)]
    rw [hpre]
    rw [List.flatMap_cons, List.flatMap_nil, List.append_nil, List.foldl_append, hA,
      List.foldl_cons]
    rw [loadStep_skip _ (by decide :
      SkipLine (lit "# Empty reserved binds for future dynamic chat/connection commands"))]
    rw [List.foldl_append, foldl_loadStep_skip _ (skip_dynFreeSlotLines _ _),
      List.foldl_cons, loadStep_empty, List.foldl_nil]
  rw [hfold]
  decide

/-! ### The used-slot set (C9) -/

theorem mem_setAdd_self (s : List Nat) (n : Nat) : n ∈ setAdd s n := by
  rw [setAdd]
  by_cases h : n ∈ s
  · rw [if_pos h]; exact h
  · rw [if_neg h]; simp

theorem mem_setAdd_of_mem {s : List Nat} {m : Nat} (n : Nat) (h : m ∈ s) :
    m ∈ setAdd s n := by
  rw [setAdd]
  by_cases hn : n ∈ s
  · rw [if_pos hn]; exact h
  · rw [if_neg hn]; exact List.mem_append_left _ h

theorem reservedFiller_used_mono (idxs : List Nat) :
    ∀ used : List Nat, ∀ m ∈ used, m ∈ (reservedFiller idxs used).2 := by
  induction idxs with
  | nil => intro used m hm; exact hm
  | cons idx rest ih =>
    intro used m hm
    rw [reservedFiller]
    by_cases h : idx < numKeyCombos
    · rw [if_pos h]
      exact ih (setAdd used idx) m (mem_setAdd_of_mem idx hm)
    · rw [if_neg h]
      exact ih used m hm

theorem reservedFiller_used_mem (idxs : List Nat) :
    ∀ used : List Nat, ∀ i ∈ idxs, i < numKeyCombos →
      i ∈ (reservedFiller idxs used).2 := by
  induction idxs with
  | nil => intro used i hi; simp at hi
  | cons idx rest ih =>
    intro used i hi hlt
    rw [reservedFiller]
    rcases List.mem_cons.mp hi with rfl | hi'
    · rw [if_pos hlt]
      exact reservedFiller_used_mono rest (setAdd used i) i (mem_setAdd_self used i)
    · by_cases h : idx < numKeyCombos
      · rw [if_pos h]
        exact ih (setAdd used idx) i hi' hlt
      · rw [if_neg h]
        exact ih used i hi' hlt

theorem assocLookup_update {κ ν : Type} [DecidableEq κ]
    (l : List (κ × ν)) (k k' : κ) (v : ν) :
    assocLookup (assocUpdate l k v) k' =
      if k = k' then some v else assocLookup l k' := by
  induction l with
  | nil => simp [assocUpdate, assocLookup]
  | cons p rest ih =>
    obtain ⟨a, b⟩ := p
    rw [assocUpdate]
    by_cases ha : a = k
    · rw [if_pos ha]
      by_cases hk : k = k'
      · simp [assocLookup, hk]
      · simp [assocLookup, hk, ha ▸ hk]
    · rw [if_neg ha]
      by_cases ha' : a = k'
      · have hk : ¬ k = k' := fun h => ha (h ▸ ha')
        simp [assocLookup, ha', hk]
      · simp [assocLookup, ha', ih]

theorem craftingGo_consistent (items : List (Int × Str)) :
    ∀ (i : Nat) (st : CraftState), CraftUsedConsistent st →
      CraftUsedConsistent (generate_crafting_binds_go i items st).2 := by
  induction items with
  | nil => intro i st h; exact h
  | cons p rest ih =>
    intro i st h
    obtain ⟨itemId, itemName⟩ := p
    rw [generate_crafting_binds_go]
    by_cases hbr : i * 2 ≥ numKeyCombos
    · rw [if_pos hbr]; exact h
    · rw [if_neg hbr]
      refine ih (i + 1) _ ?_
      intro id c₁ c₂ hlk
      rw [assocLookup_update] at hlk
      by_cases hid : itemId = id
      · rw [if_pos hid] at hlk
        injection hlk with hpair
        have h1 : c₁ = i * 2 := (Prod.mk.injEq .. ▸ hpair).1.symm
        have h2 : c₂ = i * 2 + 1 := (Prod.mk.injEq .. ▸ hpair).2.symm
        subst h1
        subst h2
        exact ⟨mem_setAdd_of_mem _ (mem_setAdd_self _ _), mem_setAdd_self _ _⟩
      · rw [if_neg hid] at hlk
        obtain ⟨hc₁, hc₂⟩ := h id c₁ c₂ hlk
        exact ⟨mem_setAdd_of_mem _ (mem_setAdd_of_mem _ hc₁),
          mem_setAdd_of_mem _ (mem_setAdd_of_mem _ hc₂)⟩

theorem craftingGo_used_mono (items : List (Int × Str)) :
    ∀ (i : Nat) (st : CraftState) (m : Nat), m ∈ st.used_binds →
      m ∈ (generate_crafting_binds_go i items st).2.used_binds := by
  induction items with
  | nil => intro i st m hm; exact hm
  | cons p rest ih =>
    intro i st m hm
    obtain ⟨itemId, itemName⟩ := p
    rw [generate_crafting_binds_go]
    by_cases hbr : i * 2 ≥ numKeyCombos
    · rw [if_pos hbr]; exact hm
    · rw [if_neg hbr]
      exact ih (i + 1) _ m (mem_setAdd_of_mem _ (mem_setAdd_of_mem _ hm))

theorem crafting_used_mono (items : List (Int × Str)) (st : CraftState) (m : Nat)
    (hm : m ∈ st.used_binds) :
    m ∈ (generate_crafting_binds items st).2.used_binds := by
  rw [generate_crafting_binds]
  by_cases hfill : items.length * 2 < CRAFTING_BINDS_END - CRAFTING_BINDS_START + 1
  · rw [if_pos hfill]
    exact reservedFiller_used_mono _ _ _ (craftingGo_used_mono items 0 st m hm)
  · rw [if_neg hfill]
    exact craftingGo_used_mono items 0 st m hm

theorem apiGo_used_mono (cmds : List (Str × Str)) :
    ∀ (i : Nat) (used : List Nat) (m : Nat), m ∈ used →
      m ∈ (generate_api_binds_go i cmds used).2 := by
  induction cmds with
  | nil => intro i used m hm; exact hm
  | cons p rest ih =>
    intro i used m hm
    obtain ⟨name, command⟩ := p
    rw [generate_api_binds_go]
    by_cases hbr : API_BINDS_START + i ≥ numKeyCombos
    · rw [if_pos hbr]; exact hm
    · rw [if_neg hbr]
      exact ih (i + 1) _ m (mem_setAdd_of_mem _ hm)

theorem api_used_mono (used : List Nat) (m : Nat) (hm : m ∈ used) :
    m ∈ (generate_api_binds used).2 := by
  rw [generate_api_binds]
  by_cases hfill : api_commands.length < API_BINDS_END - API_BINDS_START + 1
  · rw [if_pos hfill]
    rw [show ∀ (a : List Str) (b : List Nat), (a, b).2 = b from fun a b => rfl]
    exact reservedFiller_used_mono _ _ _ (apiGo_used_mono api_commands 0 used m hm)
  · rw [if_neg hfill]
    exact apiGo_used_mono api_commands 0 used m hm

theorem apiGo_mem (cmds : List (Str × Str)) :
    ∀ (i j : Nat) (used : List Nat), j < cmds.length →
      API_BINDS_START + i + j < numKeyCombos →
      API_BINDS_START + i + j ∈ (generate_api_binds_go i cmds used).2 := by
  induction cmds with
  | nil => intro i j used hj _; simp at hj
  | cons p rest ih =>
    intro i j used hj hlt
    obtain ⟨name, command⟩ := p
    rw [generate_api_binds_go]
    by_cases hbr : API_BINDS_START + i ≥ numKeyCombos
    · exact absurd hlt (by omega)
    · rw [if_neg hbr]
      cases j with
      | zero =>
        rw [show API_BINDS_START + i + 0 = API_BINDS_START + i from by omega]
        exact apiGo_used_mono rest (i + 1) _ _ (mem_setAdd_self used _)
      | succ j' =>
        rw [show API_BINDS_START + i + (j' + 1) = API_BINDS_START + (i + 1) + j' from
          by omega]
        refine ih (i + 1) j' _ ?_ (by omega)
        simp only [List.length_cons] at hj
        omega

theorem api_mem (used : List Nat) (i : Nat) (hi : i < api_commands.length)
    (hlt : API_BINDS_START + i < numKeyCombos) :
    API_BINDS_START + i ∈ (generate_api_binds used).2 := by
  have h := apiGo_mem api_commands 0 i used hi (by omega)
  rw [show API_BINDS_START + 0 + i = API_BINDS_START + i from by omega] at h
  rw [generate_api_binds]
  by_cases hfill : api_commands.length < API_BINDS_END - API_BINDS_START + 1
  · rw [if_pos hfill]
    rw [show ∀ (a : List Str) (b : List Nat), (a, b).2 = b from fun a b => rfl]
    exact reservedFiller_used_mono _ _ _ h
  · rw [if_neg hfill]
    exact h

theorem dyn_used_mono (dynBinds : List (Str × Nat)) (used : List Nat) (m : Nat)
    (hm : m ∈ used) : m ∈ (generate_dynamic_chat_binds dynBinds used).2 := by
  rw [generate_dynamic_chat_binds]
  by_cases hnil : dynBinds = []
  · rw [if_pos hnil, generate_chat_binds]
    rw [show ∀ (a : List Str) (b : List Nat), (a, b).2 = b from fun a b => rfl]
    exact reservedFiller_used_mono _ _ _ hm
  · rw [if_neg hnil]
    by_cases hlen : dynBinds.length < CHAT_BINDS_END - CHAT_BINDS_START + 1
    · rw [if_pos hlen]; exact hm
    · rw [if_neg hlen]; exact hm

theorem mem_snd_assocUpdate {κ ν : Type} [DecidableEq κ] {l : List (κ × ν)} {k : κ}
    {v : ν} {n : ν} (h : n ∈ (assocUpdate l k v).map Prod.snd) :
    n = v ∨ n ∈ l.map Prod.snd := by
  induction l with
  | nil => simpa [assocUpdate] using h
  | cons p rest ih =>
    obtain ⟨k', v'⟩ := p
    rw [assocUpdate] at h
    by_cases hk : k' = k
    · rw [if_pos hk] at h
      simp only [List.map_cons, List.mem_cons] at h
      rcases h with rfl | h
      · exact Or.inl rfl
      · exact Or.inr (List.mem_cons_of_mem _ h)
    · rw [if_neg hk] at h
      simp only [List.map_cons, List.mem_cons] at h
      rcases h with rfl | h
      · exact Or.inr (List.mem_cons_self _ _)
      · rcases ih h with rfl | h'
        · exact Or.inl rfl
        · exact Or.inr (List.mem_cons_of_mem _ h')

/-- Every dynamic-cache mutation keeps each entry's slot in
`used_binds` (hit: nothing changes; fresh and evict: the touched slot
is added and evicted keys only disappear). -/
theorem getOrCreate_used_consistent (st : DynState) (ct sv : Str) (ret : Nat)
    (st' : DynState) (hst : DynUsedConsistent st)
    (heq : get_or_create_dynamic_bind st ct sv = some (ret, st')) :
    DynUsedConsistent st' := by
  unfold get_or_create_dynamic_bind at heq
  cases hlk : assocLookup st.dynamic_binds (mkBindKey ct sv) with
  | some bind_index =>
    rw [hlk] at heq
    injection heq with heq
    rw [Prod.mk.injEq] at heq
    have h2 := heq.2
    subst h2
    intro n hn
    exact hst n hn
  | none =>
    rw [hlk] at heq
    by_cases hfull : st.dynamic_binds.length ≥ CHAT_BINDS_END - CHAT_BINDS_START + 1
    · rw [if_pos hfull] at heq
      cases horder : st.dynamic_bind_order with
      | nil =>
        rw [horder] at heq
        exact absurd heq (by simp)
      | cons oldest restOrder =>
        rw [horder] at heq
        injection heq with heq
        rw [Prod.mk.injEq] at heq
        have h2 := heq.2
        subst h2
        intro n hn
        rcases mem_snd_assocUpdate hn with rfl | hn'
        · exact mem_setAdd_self _ _
        · refine mem_setAdd_of_mem _ (hst n ?_)
          split at hn'
          · split at hn'
            · exact ((List.eraseP_sublist _).map Prod.snd).subset hn'
            · exact hn'
          · exact hn'
    · rw [if_neg hfull] at heq
      injection heq with heq
      rw [Prod.mk.injEq] at heq
      have h2 := heq.2
      subst h2
      intro n hn
      rcases mem_snd_assocUpdate hn with rfl | hn'
      · exact mem_setAdd_self _ _
      · exact mem_setAdd_of_mem _ (hst n hn')

/-- C9 (amended): `used_binds` is consistent with the occupying
structures in the superset direction, across the allocator, the
dynamic cache and config persistence: the crafting generator keeps
every mapped pair's slots used, the API generator marks the slot of
every emitted static command used, every dynamic-cache mutation keeps
each entry's slot used, and the config write preserves every
already-used slot.  The claimed exact correspondence ("in the used set
exactly when occupied") is false: the generators also mark every empty
reserved placeholder slot used; see the counterexample. -/
theorem C9_used_slots_superset :
    (∀ (items : List (Int × Str)) (st : CraftState), CraftUsedConsistent st →
      CraftUsedConsistent (generate_crafting_binds items st).2) ∧
    (∀ (used : List Nat) (i : Nat), i < api_commands.length →
      API_BINDS_START + i < numKeyCombos →
      API_BINDS_START + i ∈ (generate_api_binds used).2) ∧
    (∀ (st : DynState) (ct sv : Str) (ret : Nat) (st' : DynState),
      DynUsedConsistent st →
      get_or_create_dynamic_bind st ct sv = some (ret, st') →
      DynUsedConsistent st') ∧
    (∀ (user : List Str) (items : List (Int × Str)) (dynBinds : List (Str × Nat))
        (st : CraftState) (m : Nat), m ∈ st.used_binds →
      m ∈ (write_keys_cfg_lines user items dynBinds st).2.used_binds) := by
  refine ⟨?_, ?_, ?_, ?_⟩
  · intro items st hst
    rw [generate_crafting_binds]
    by_cases hfill : items.length * 2 < CRAFTING_BINDS_END - CRAFTING_BINDS_START + 1
    · rw [if_pos hfill]
      intro id c₁ c₂ hlk
      have hgo := craftingGo_consistent items 0 st hst
      obtain ⟨h1, h2⟩ := hgo id c₁ c₂ hlk
      exact ⟨reservedFiller_used_mono _ _ _ h1, reservedFiller_used_mono _ _ _ h2⟩
    · rw [if_neg hfill]
      exact craftingGo_consistent items 0 st hst
  · intro used i hi hlt
    exact api_mem used i hi hlt
  · intro st ct sv ret st' hst heq
    exact getOrCreate_used_consistent st ct sv ret st' hst heq
  · intro user items dynBinds st m hm
    rw [write_keys_cfg_lines]
    exact dyn_used_mono _ _ _ (api_used_mono _ _ (crafting_used_mono items st m hm))

theorem C9_used_slots_superset_witness :
    CraftUsedConsistent
      (generate_crafting_binds [((1 : Int), lit "rock")]
        { bind_mapping := [], used_binds := [] }).2 ∧
    API_BINDS_START + 0 ∈ (generate_api_binds []).2 ∧
    DynUsedConsistent
      { dynamic_binds := [(lit "chat_say:hi", 4000)], dynamic_bind_order := [4000],
        next_dynamic_bind := 4001, used_binds := [4000] } ∧
    5 ∈ (write_keys_cfg_lines [] [] []
      { bind_mapping := [], used_binds := [5] }).2.used_binds :=
  ⟨C9_used_slots_superset.1 [((1 : Int), lit "rock")]
      { bind_mapping := [], used_binds := [] }
      (by intro id c₁ c₂ h; simp [assocLookup] at h),
    C9_used_slots_superset.2.1 [] 0 (by decide)
      (by rw [numKeyCombos_eq, show API_BINDS_START = 3000 from rfl]; omega),
    C9_used_slots_superset.2.2.1 initDynState (lit "chat_say") (lit "hi") 4000
      { dynamic_binds := [(lit "chat_say:hi", 4000)], dynamic_bind_order := [4000],
        next_dynamic_bind := 4001, used_binds := [4000] }
      (by intro n hn; simp [initDynState] at hn) (by decide),
    C9_used_slots_superset.2.2.2 [] [] [] { bind_mapping := [], used_binds := [5] } 5
      (by simp)⟩

/-- C9 is false as stated: running the crafting generator on an empty
catalog from the empty state marks slot 0 used (the empty-reserved-slot
filler), although the crafting mapping is empty, no API/static command
occupies it (they live at 3000+), and no dynamic-bind entry exists. -/
theorem C9_used_slots_cex :
    0 ∈ (generate_crafting_binds [] { bind_mapping := [], used_binds := [] }).2.used_binds ∧
    (generate_crafting_binds [] { bind_mapping := [], used_binds := [] }).2.bind_mapping =
      [] := by
  have hgo : generate_crafting_binds_go 0 [] { bind_mapping := [], used_binds := [] } =
      ([], { bind_mapping := [], used_binds := [] }) := by
    rw [generate_crafting_binds_go]
  constructor
  · rw [generate_crafting_binds, hgo, if_pos (by decide)]
    rw [show (([] : List Str),
        ({ bind_mapping := [], used_binds := [] } : CraftState)).2 =
      { bind_mapping := [], used_binds := [] } from rfl]
    rw [show ({ bind_mapping := [], used_binds := [] } : CraftState).used_binds =
      ([] : List Nat) from rfl]
    rw [show ∀ (a : List Str) (b : CraftState), (a, b).2 = b from fun a b => rfl]
    rw [show ∀ (a : List (Int × (Nat × Nat))) (b : List Nat),
      (CraftState.mk a b).used_binds = b from fun a b => rfl]
    refine reservedFiller_used_mem _ _ 0 ?_ (by rw [numKeyCombos_eq]; omega)
    rw [List.mem_range'_1]
    refine ⟨by simp [CRAFTING_BINDS_START], ?_⟩
    have h1 : CRAFTING_BINDS_START = 0 := rfl
    have h2 : CRAFTING_BINDS_END = 2999 := rfl
    rw [h1, h2]
    omega
  · rw [generate_crafting_binds, hgo, if_pos (by decide)]

/-! ### Reading a marker-less file (C10) -/

theorem loadStep_no_rust {l : Str} (ls : LoadState) (hR : ls.inRust = false)
    (hm : pyStrip l ≠ lit "#RUST-ACTIONS-START") :
    (loadStep ls l).inRust = false ∧ (loadStep ls l).binds = ls.binds := by
  unfold loadStep
  rw [if_neg hm]
  by_cases h2 : pyStrip l = lit "#RUST-ACTIONS-END"
  · rw [if_pos h2]; exact ⟨rfl, rfl⟩
  · rw [if_neg h2]
    by_cases h3 : pyStrip l = lit "# === CHAT/CONNECTION BINDS ==="
    · rw [if_pos h3]; exact ⟨hR, rfl⟩
    · rw [if_neg h3, if_pos (by simp [hR])]
      exact ⟨hR, rfl⟩

theorem foldl_no_rust (lines : List Str)
    (hm : ∀ l ∈ lines, pyStrip l ≠ lit "#RUST-ACTIONS-START") :
    ∀ ls : LoadState, ls.inRust = false →
      (lines.foldl loadStep ls).inRust = false ∧
      (lines.foldl loadStep ls).binds = ls.binds := by
  induction lines with
  | nil => intro ls hR; exact ⟨hR, rfl⟩
  | cons l rest ih =>
    intro ls hR
    rw [List.foldl_cons]
    have hstep := loadStep_no_rust ls hR (hm l (List.mem_cons_self _ _))
    have hrest := ih (fun l' hl' => hm l' (List.mem_cons_of_mem _ hl')) (loadStep ls l) hstep.1
    exact ⟨hrest.1, hrest.2.trans hstep.2⟩

/-- C10 (amended): applied to a file with no section markers, `read`
yields a user section consisting of the file's non-blank, non-comment
lines — not the entire file, since blank lines and `#` comments are
dropped by the fallback filter — and the dynamic loader yields no
entries. -/
theorem C10_markerless_read (lines : List Str)
    (hm : ∀ l ∈ lines, pyStrip l ≠ lit "#USER-SECTION-START" ∧
      pyStrip l ≠ lit "#RUST-ACTIONS-START") :
    read_existing_keys_cfg lines =
      (lines.filter (fun l => pyStrip l ≠ [] ∧ ¬ leadsWith ['#'] (pyStrip l)), [], []) ∧
    (load_dynamic_binds_from_keys_cfg lines).binds = [] := by
  constructor
  · rw [read_existing_keys_cfg]
    rw [if_pos (by
      simp only [List.any_eq_true, decide_eq_true_eq, not_exists]
      rintro l ⟨hl, h | h⟩
      · exact (hm l hl).1 h
      · exact (hm l hl).2 h)]
  · have hr : (load_dynamic_binds_from_keys_cfg lines).binds =
        (lines.foldl loadStep
          { binds := [], order := [], used := [], next := CHAT_BINDS_START,
            inRust := false, inChat := false }).binds := rfl
    rw [hr, (foldl_no_rust lines (fun l hl => (hm l hl).2) _ rfl).2]

theorem C10_markerless_read_witness :
    read_existing_keys_cfg [lit "bind q kill"] = ([lit "bind q kill"], [], []) ∧
    (load_dynamic_binds_from_keys_cfg [lit "bind q kill"]).binds = [] := by
  have h := C10_markerless_read [lit "bind q kill"] (by
    intro l hl
    rw [List.mem_singleton] at hl
    subst hl
    exact ⟨by decide, by decide⟩)
  exact ⟨h.1.trans (by decide), h.2⟩

/-- C10 is false as stated: on a marker-less file holding a comment and
a bind line, `read` drops the comment instead of treating the entire
file as the user section. -/
theorem C10_markerless_read_cex :
    read_existing_keys_cfg [lit "# my comment", lit "bind q kill"] ≠
      ([lit "# my comment", lit "bind q kill"], [], []) := by decide

end RustActions
